import Mathlib

set_option maxRecDepth 8192

/-!
Verification of the gaudi image-to-terminal renderer.

The definitions below are a shallow embedding of `src/main.rs` and
`src/bash_syntax.rs`.  Machine integers (`u8`, `u32`) are modelled as `Nat`;
all arithmetic performed by the program stays far below the respective
bounds (the largest value is a squared-distance sum `3 * 255^2 < 2^32`),
and the only subtraction is `max - min`, which cannot underflow, so the
`Nat` model is exact.  Panicking operations additionally get `Option`-valued
variants (`…?`/`…_checked`) whose `none` marks the panic; the safety
theorems prove those branches unreachable.
-/

/-- `colored::Color` (the `colored` crate): the candidate type handed to
`pick_closest_from` and `into_truecolor`. -/
inductive CColor where
  | Black | Red | Green | Yellow | Blue | Magenta | Cyan | White
  | BrightBlack | BrightRed | BrightGreen | BrightYellow
  | BrightBlue | BrightMagenta | BrightCyan | BrightWhite
  | TrueColor (r g b : Nat)
deriving DecidableEq

/-- `ansi_term::Colour`: the output colour type of the three mapping
functions (`Purple` is `ansi_term`'s name for magenta). -/
inductive Colour where
  | Black | Red | Green | Yellow | Blue | Purple | Cyan | White
  | Fixed (n : Nat)
  | RGB (r g b : Nat)
deriving DecidableEq

/-- `image::Rgba<u8>`: four 8-bit channels, `pixel[0..4] = r,g,b,a`. -/
structure Pixel where
  r : Nat
  g : Nat
  b : Nat
  a : Nat
deriving DecidableEq

/-- `ansi_term::Style`, restricted to the two slots this program ever sets
(no bold/italic/…): an optional foreground and background colour. -/
structure Style where
  foreground : Option Colour
  background : Option Colour
deriving DecidableEq

/-- `Style::default()`: no foreground, no background. -/
def Style.default : Style := ⟨none, none⟩

/-- `ansi_term::ANSIGenericString`: a glyph span = style + text. -/
structure Span where
  style : Style
  text : String
deriving DecidableEq

/-- `colour.paint(text)`: foreground-only span. -/
def Colour.paint (c : Colour) (s : String) : Span := ⟨⟨some c, none⟩, s⟩

/-- `fg.on(bg)`: style with both slots set. -/
def Colour.on (fg bg : Colour) : Style := ⟨some fg, some bg⟩

/-- `style.paint(text)`. -/
def Style.paint (st : Style) (s : String) : Span := ⟨st, s⟩

/-- `fn into_truecolor(color: &colored::Color) -> (u8, u8, u8)`
(main.rs:756): fixed reference RGB for each named colour. -/
def into_truecolor : CColor → Nat × Nat × Nat
  | .Black => (0, 0, 0)
  | .Red => (205, 0, 0)
  | .Green => (0, 205, 0)
  | .Yellow => (205, 205, 0)
  | .Blue => (0, 0, 238)
  | .Magenta => (205, 0, 205)
  | .Cyan => (0, 205, 205)
  | .White => (229, 229, 229)
  | .BrightBlack => (127, 127, 127)
  | .BrightRed => (255, 0, 0)
  | .BrightGreen => (0, 255, 0)
  | .BrightYellow => (255, 255, 0)
  | .BrightBlue => (92, 92, 255)
  | .BrightMagenta => (255, 0, 255)
  | .BrightCyan => (0, 255, 255)
  | .BrightWhite => (255, 255, 255)
  | .TrueColor r g b => (r, g, b)

/-- `fn euclidian_distance(ca, cb) -> u32` (main.rs:740): squared Euclidean
distance; each channel difference is `max - min` (u8, cannot underflow),
then squared and summed in `u32`. -/
def euclidian_distance (ca cb : Nat × Nat × Nat) : Nat :=
  let rd := max ca.1 cb.1 - min ca.1 cb.1
  let gd := max ca.2.1 cb.2.1 - min ca.2.1 cb.2.1
  let bd := max ca.2.2 cb.2.2 - min ca.2.2 cb.2.2
  rd ^ 2 + gd ^ 2 + bd ^ 2

/-- Checked `u8` subtraction: `none` models the Rust underflow panic. -/
def checked_sub (a b : Nat) : Option Nat :=
  if b ≤ a then some (a - b) else none

/-- `euclidian_distance` with the subtractions checked: `none` would mark an
`u8` underflow panic in `max ... - min ...`. -/
def euclidian_distance_checked (ca cb : Nat × Nat × Nat) : Option Nat :=
  match checked_sub (max ca.1 cb.1) (min ca.1 cb.1),
      checked_sub (max ca.2.1 cb.2.1) (min ca.2.1 cb.2.1),
      checked_sub (max ca.2.2 cb.2.2) (min ca.2.2 cb.2.2) with
  | some rd, some gd, some bd => some (rd ^ 2 + gd ^ 2 + bd ^ 2)
  | _, _, _ => none

/-- `fn pick_closest_from<C>(color, choices, candidate_to_truecolor) -> Option<&C>`
(main.rs:731): `choices.iter().min_by_key(distance to color)`.  Rust's
`min_by_key` returns the **first** element attaining the minimum, which the
fold below reproduces: the accumulator is replaced only on a strictly
smaller key. -/
def pick_closest_from {C : Type} (color : CColor) (choices : List C)
    (candidate_to_truecolor : C → Nat × Nat × Nat) : Option C :=
  let input_as_truecolor := into_truecolor color
  choices.foldl
    (fun acc candidate =>
      match acc with
      | none => some candidate
      | some best =>
          if euclidian_distance input_as_truecolor (candidate_to_truecolor candidate) <
              euclidian_distance input_as_truecolor (candidate_to_truecolor best)
            then some candidate else some best)
    none

/-- The candidate list of `color_mapping_ansi` (main.rs:171):
`[Black, Red, Green, Yellow, Blue, Magenta, Cyan, White]`. -/
def basic_candidates : List CColor :=
  [CColor.Black, CColor.Red, CColor.Green, CColor.Yellow,
   CColor.Blue, CColor.Magenta, CColor.Cyan, CColor.White]

/-- `fn color_mapping_ansi(pixel) -> Colour` (main.rs:162).  Note the final
correspondence table of the source maps every non-`Black` match to
`Colour::Red` — this is transcribed as-is.  The last arm stands for both the
`.unwrap()` and the `_ => panic!()` arm; the safety theorems show it is
unreachable. -/
def color_mapping_ansi (pixel : Pixel) : Colour :=
  match pick_closest_from (CColor.TrueColor pixel.r pixel.g pixel.b)
      basic_candidates into_truecolor with
  | some CColor.Black => Colour.Black
  | some CColor.Red => Colour.Red
  | some CColor.Green => Colour.Red
  | some CColor.Yellow => Colour.Red
  | some CColor.Blue => Colour.Red
  | some CColor.Magenta => Colour.Red
  | some CColor.Cyan => Colour.Red
  | some CColor.White => Colour.Red
  | _ => Colour.Black

/-- `static ansi_colors: [Colour; 256]` (main.rs:197): the source enumerates
`Colour::Fixed(0x00)` through `Colour::Fixed(0xFF)` literally; this list is
the same sequence. -/
def ansi_colors : List Colour := (List.range 256).map Colour.Fixed

/-- `fn color_mapping_truecolor(pixel) -> Colour` (main.rs:158). -/
def color_mapping_truecolor (pixel : Pixel) : Colour :=
  Colour.RGB pixel.r pixel.g pixel.b

/-- `static ansi_color_to_truecolor: [(u8, u8, u8); 256]` (main.rs:456): the
reference RGB of each of the 256 palette entries (16 system colours, the
6x6x6 colour cube, the 24-step gray ramp), transcribed literally. -/
def ansi_color_to_truecolor : List (Nat × Nat × Nat) := [
  (0x00, 0x00, 0x00), (0x80, 0x00, 0x00), (0x00, 0x80, 0x00), (0x80, 0x80, 0x00),
  (0x00, 0x00, 0x80), (0x80, 0x00, 0x80), (0x00, 0x80, 0x80), (0xc0, 0xc0, 0xc0),
  (0x80, 0x80, 0x80), (0xff, 0x00, 0x00), (0x00, 0xff, 0x00), (0xff, 0xff, 0x00),
  (0x00, 0x00, 0xff), (0xff, 0x00, 0xff), (0x00, 0xff, 0xff), (0xff, 0xff, 0xff),
  (0x00, 0x00, 0x00), (0x00, 0x00, 0x5f), (0x00, 0x00, 0x87), (0x00, 0x00, 0xaf),
  (0x00, 0x00, 0xd7), (0x00, 0x00, 0xff), (0x00, 0x5f, 0x00), (0x00, 0x5f, 0x5f),
  (0x00, 0x5f, 0x87), (0x00, 0x5f, 0xaf), (0x00, 0x5f, 0xd7), (0x00, 0x5f, 0xff),
  (0x00, 0x87, 0x00), (0x00, 0x87, 0x5f), (0x00, 0x87, 0x87), (0x00, 0x87, 0xaf),
  (0x00, 0x87, 0xd7), (0x00, 0x87, 0xff), (0x00, 0xaf, 0x00), (0x00, 0xaf, 0x5f),
  (0x00, 0xaf, 0x87), (0x00, 0xaf, 0xaf), (0x00, 0xaf, 0xd7), (0x00, 0xaf, 0xff),
  (0x00, 0xd7, 0x00), (0x00, 0xd7, 0x5f), (0x00, 0xd7, 0x87), (0x00, 0xd7, 0xaf),
  (0x00, 0xd7, 0xd7), (0x00, 0xd7, 0xff), (0x00, 0xff, 0x00), (0x00, 0xff, 0x5f),
  (0x00, 0xff, 0x87), (0x00, 0xff, 0xaf), (0x00, 0xff, 0xd7), (0x00, 0xff, 0xff),
  (0x5f, 0x00, 0x00), (0x5f, 0x00, 0x5f), (0x5f, 0x00, 0x87), (0x5f, 0x00, 0xaf),
  (0x5f, 0x00, 0xd7), (0x5f, 0x00, 0xff), (0x5f, 0x5f, 0x00), (0x5f, 0x5f, 0x5f),
  (0x5f, 0x5f, 0x87), (0x5f, 0x5f, 0xaf), (0x5f, 0x5f, 0xd7), (0x5f, 0x5f, 0xff),
  (0x5f, 0x87, 0x00), (0x5f, 0x87, 0x5f), (0x5f, 0x87, 0x87), (0x5f, 0x87, 0xaf),
  (0x5f, 0x87, 0xd7), (0x5f, 0x87, 0xff), (0x5f, 0xaf, 0x00), (0x5f, 0xaf, 0x5f),
  (0x5f, 0xaf, 0x87), (0x5f, 0xaf, 0xaf), (0x5f, 0xaf, 0xd7), (0x5f, 0xaf, 0xff),
  (0x5f, 0xd7, 0x00), (0x5f, 0xd7, 0x5f), (0x5f, 0xd7, 0x87), (0x5f, 0xd7, 0xaf),
  (0x5f, 0xd7, 0xd7), (0x5f, 0xd7, 0xff), (0x5f, 0xff, 0x00), (0x5f, 0xff, 0x5f),
  (0x5f, 0xff, 0x87), (0x5f, 0xff, 0xaf), (0x5f, 0xff, 0xd7), (0x5f, 0xff, 0xff),
  (0x87, 0x00, 0x00), (0x87, 0x00, 0x5f), (0x87, 0x00, 0x87), (0x87, 0x00, 0xaf),
  (0x87, 0x00, 0xd7), (0x87, 0x00, 0xff), (0x87, 0x5f, 0x00), (0x87, 0x5f, 0x5f),
  (0x87, 0x5f, 0x87), (0x87, 0x5f, 0xaf), (0x87, 0x5f, 0xd7), (0x87, 0x5f, 0xff),
  (0x87, 0x87, 0x00), (0x87, 0x87, 0x5f), (0x87, 0x87, 0x87), (0x87, 0x87, 0xaf),
  (0x87, 0x87, 0xd7), (0x87, 0x87, 0xff), (0x87, 0xaf, 0x00), (0x87, 0xaf, 0x5f),
  (0x87, 0xaf, 0x87), (0x87, 0xaf, 0xaf), (0x87, 0xaf, 0xd7), (0x87, 0xaf, 0xff),
  (0x87, 0xd7, 0x00), (0x87, 0xd7, 0x5f), (0x87, 0xd7, 0x87), (0x87, 0xd7, 0xaf),
  (0x87, 0xd7, 0xd7), (0x87, 0xd7, 0xff), (0x87, 0xff, 0x00), (0x87, 0xff, 0x5f),
  (0x87, 0xff, 0x87), (0x87, 0xff, 0xaf), (0x87, 0xff, 0xd7), (0x87, 0xff, 0xff),
  (0xaf, 0x00, 0x00), (0xaf, 0x00, 0x5f), (0xaf, 0x00, 0x87), (0xaf, 0x00, 0xaf),
  (0xaf, 0x00, 0xd7), (0xaf, 0x00, 0xff), (0xaf, 0x5f, 0x00), (0xaf, 0x5f, 0x5f),
  (0xaf, 0x5f, 0x87), (0xaf, 0x5f, 0xaf), (0xaf, 0x5f, 0xd7), (0xaf, 0x5f, 0xff),
  (0xaf, 0x87, 0x00), (0xaf, 0x87, 0x5f), (0xaf, 0x87, 0x87), (0xaf, 0x87, 0xaf),
  (0xaf, 0x87, 0xd7), (0xaf, 0x87, 0xff), (0xaf, 0xaf, 0x00), (0xaf, 0xaf, 0x5f),
  (0xaf, 0xaf, 0x87), (0xaf, 0xaf, 0xaf), (0xaf, 0xaf, 0xd7), (0xaf, 0xaf, 0xff),
  (0xaf, 0xd7, 0x00), (0xaf, 0xd7, 0x5f), (0xaf, 0xd7, 0x87), (0xaf, 0xd7, 0xaf),
  (0xaf, 0xd7, 0xd7), (0xaf, 0xd7, 0xff), (0xaf, 0xff, 0x00), (0xaf, 0xff, 0x5f),
  (0xaf, 0xff, 0x87), (0xaf, 0xff, 0xaf), (0xaf, 0xff, 0xd7), (0xaf, 0xff, 0xff),
  (0xd7, 0x00, 0x00), (0xd7, 0x00, 0x5f), (0xd7, 0x00, 0x87), (0xd7, 0x00, 0xaf),
  (0xd7, 0x00, 0xd7), (0xd7, 0x00, 0xff), (0xd7, 0x5f, 0x00), (0xd7, 0x5f, 0x5f),
  (0xd7, 0x5f, 0x87), (0xd7, 0x5f, 0xaf), (0xd7, 0x5f, 0xd7), (0xd7, 0x5f, 0xff),
  (0xd7, 0x87, 0x00), (0xd7, 0x87, 0x5f), (0xd7, 0x87, 0x87), (0xd7, 0x87, 0xaf),
  (0xd7, 0x87, 0xd7), (0xd7, 0x87, 0xff), (0xd7, 0xaf, 0x00), (0xd7, 0xaf, 0x5f),
  (0xd7, 0xaf, 0x87), (0xd7, 0xaf, 0xaf), (0xd7, 0xaf, 0xd7), (0xd7, 0xaf, 0xff),
  (0xd7, 0xd7, 0x00), (0xd7, 0xd7, 0x5f), (0xd7, 0xd7, 0x87), (0xd7, 0xd7, 0xaf),
  (0xd7, 0xd7, 0xd7), (0xd7, 0xd7, 0xff), (0xd7, 0xff, 0x00), (0xd7, 0xff, 0x5f),
  (0xd7, 0xff, 0x87), (0xd7, 0xff, 0xaf), (0xd7, 0xff, 0xd7), (0xd7, 0xff, 0xff),
  (0xff, 0x00, 0x00), (0xff, 0x00, 0x5f), (0xff, 0x00, 0x87), (0xff, 0x00, 0xaf),
  (0xff, 0x00, 0xd7), (0xff, 0x00, 0xff), (0xff, 0x5f, 0x00), (0xff, 0x5f, 0x5f),
  (0xff, 0x5f, 0x87), (0xff, 0x5f, 0xaf), (0xff, 0x5f, 0xd7), (0xff, 0x5f, 0xff),
  (0xff, 0x87, 0x00), (0xff, 0x87, 0x5f), (0xff, 0x87, 0x87), (0xff, 0x87, 0xaf),
  (0xff, 0x87, 0xd7), (0xff, 0x87, 0xff), (0xff, 0xaf, 0x00), (0xff, 0xaf, 0x5f),
  (0xff, 0xaf, 0x87), (0xff, 0xaf, 0xaf), (0xff, 0xaf, 0xd7), (0xff, 0xaf, 0xff),
  (0xff, 0xd7, 0x00), (0xff, 0xd7, 0x5f), (0xff, 0xd7, 0x87), (0xff, 0xd7, 0xaf),
  (0xff, 0xd7, 0xd7), (0xff, 0xd7, 0xff), (0xff, 0xff, 0x00), (0xff, 0xff, 0x5f),
  (0xff, 0xff, 0x87), (0xff, 0xff, 0xaf), (0xff, 0xff, 0xd7), (0xff, 0xff, 0xff),
  (0x08, 0x08, 0x08), (0x12, 0x12, 0x12), (0x1c, 0x1c, 0x1c), (0x26, 0x26, 0x26),
  (0x30, 0x30, 0x30), (0x3a, 0x3a, 0x3a), (0x44, 0x44, 0x44), (0x4e, 0x4e, 0x4e),
  (0x58, 0x58, 0x58), (0x62, 0x62, 0x62), (0x6c, 0x6c, 0x6c), (0x76, 0x76, 0x76),
  (0x80, 0x80, 0x80), (0x8a, 0x8a, 0x8a), (0x94, 0x94, 0x94), (0x9e, 0x9e, 0x9e),
  (0xa8, 0xa8, 0xa8), (0xb2, 0xb2, 0xb2), (0xbc, 0xbc, 0xbc), (0xc6, 0xc6, 0xc6),
  (0xd0, 0xd0, 0xd0), (0xda, 0xda, 0xda), (0xe4, 0xe4, 0xe4), (0xee, 0xee, 0xee)]

/-- The closure `color_mapping_256` hands to `pick_closest_from`
(main.rs:722–727), named here: a `Fixed` index looks up its palette RGB;
any other colour would hit `panic!("Not a fixed color")`, modelled with a
junk value and checked (and proved unreachable) separately. -/
def fixed_to_truecolor (c : Colour) : Nat × Nat × Nat :=
  match c with
  | Colour.Fixed index => ansi_color_to_truecolor.getD index (0, 0, 0)
  | _ => (0, 0, 0)

/-- `fixed_to_truecolor` with the panic sites surfaced: `none` for the
non-`Fixed` panic and for an out-of-bounds palette index. -/
def fixed_to_truecolor_checked (c : Colour) : Option (Nat × Nat × Nat) :=
  match c with
  | Colour.Fixed index => ansi_color_to_truecolor.get? index
  | _ => none

/-- `fn color_mapping_256(pixel) -> Colour` (main.rs:715).  The `none` arm
is the `.unwrap()` panic, modelled with a junk value and proved
unreachable. -/
def color_mapping_256 (pixel : Pixel) : Colour :=
  match pick_closest_from (CColor.TrueColor pixel.r pixel.g pixel.b)
      ansi_colors fixed_to_truecolor with
  | some c => c
  | none => Colour.Black

/-- `pick_closest_from` with a key that may panic (`none`): Rust's
`min_by_key` evaluates the key on every element, so the whole call panics
iff the key panics on any candidate. -/
def pick_closest_from_checked {C : Type} (color : CColor) (choices : List C)
    (candidate_to_truecolor : C → Option (Nat × Nat × Nat)) : Option (Option C) :=
  if choices.all (fun c => (candidate_to_truecolor c).isSome) then
    some (pick_closest_from color choices (fun c => (candidate_to_truecolor c).getD (0, 0, 0)))
  else none

/-- `color_mapping_256` with every panic site surfaced as `none`: the
closure's non-`Fixed` panic, an out-of-bounds palette index, and the final
`.unwrap()`. -/
def color_mapping_256_checked (pixel : Pixel) : Option Colour :=
  match pick_closest_from_checked (CColor.TrueColor pixel.r pixel.g pixel.b)
      ansi_colors fixed_to_truecolor_checked with
  | some (some c) => some c
  | some none => none
  | none => none

/-- `color_mapping_ansi` with the `.unwrap()` and the `_ => panic!()` arm
surfaced as `none`. -/
def color_mapping_ansi_checked (pixel : Pixel) : Option Colour :=
  match pick_closest_from (CColor.TrueColor pixel.r pixel.g pixel.b)
      basic_candidates into_truecolor with
  | some CColor.Black => some Colour.Black
  | some CColor.Red => some Colour.Red
  | some CColor.Green => some Colour.Red
  | some CColor.Yellow => some Colour.Red
  | some CColor.Blue => some Colour.Red
  | some CColor.Magenta => some Colour.Red
  | some CColor.Cyan => some Colour.Red
  | some CColor.White => some Colour.Red
  | some _ => none
  | none => none

/-- `enum ColorMode` (main.rs:32). -/
inductive ColorMode where
  | TrueColor | ANSI | M256Color
deriving DecidableEq

/-- `ColorMode::color_mapper` (main.rs:61). -/
def ColorMode.color_mapper : ColorMode → (Pixel → Colour)
  | .TrueColor => color_mapping_truecolor
  | .ANSI => color_mapping_ansi
  | .M256Color => color_mapping_256

/-- `enum VerticalDirection` (main.rs:27). -/
inductive VerticalDirection where
  | UP | DOWN
deriving DecidableEq

/-- Rust `str::to_lowercase`, restricted to ASCII (every string this
program compares against is plain lowercase ASCII). -/
def to_lowercase (s : String) : String :=
  String.mk (s.data.map (fun c =>
    if 65 ≤ c.toNat ∧ c.toNat ≤ 90 then Char.ofNat (c.toNat + 32) else c))

/-- `impl FromStr for ColorMode` (main.rs:38).  `colorterm` is the value of
the `COLORTERM` environment variable (`none` = unset/error), read at
**generation** time when the argument is `auto`. -/
def ColorMode.from_str (s : String) (colorterm : Option String) : Except String ColorMode :=
  let input_lowercase := to_lowercase s
  if input_lowercase = "truecolor" then .ok ColorMode.TrueColor
  else if input_lowercase = "ansi" then .ok ColorMode.ANSI
  else if input_lowercase = "256" then .ok ColorMode.M256Color
  else if input_lowercase = "auto" then
    .ok (match colorterm with
      | some ct => if ct = "truecolor" ∨ ct = "24bit" then ColorMode.TrueColor else ColorMode.ANSI
      | none => ColorMode.ANSI)
  else .error "Invalid color mode, use truecolor, ansi, 256 or auto"

/-- The decoded pixel buffer: width, height, and the pixel at column `x`,
row `y` (`GenericImageView::get_pixel(x, y)`). -/
structure Image where
  width : Nat
  height : Nat
  pix : Nat → Nat → Pixel

/-- `fn is_transparent(pixel) -> bool` (main.rs:132): alpha = 0. -/
def is_transparent (pixel : Pixel) : Bool := pixel.a == 0

/-- `Rgba::from([0, 0, 0, 0])`: the synthesized fully-transparent pixel. -/
def transparent_pixel : Pixel := ⟨0, 0, 0, 0⟩

/-- `Style::default().paint("\n")`: the unstyled newline span ending a row. -/
def newline_span : Span := Style.paint Style.default "\n"

/-- `fn two_pixels_to_ascii_char(upper, lower, color_mapper)` (main.rs:136). -/
def two_pixels_to_ascii_char (upper_pixel lower_pixel : Pixel)
    (color_mapper : Pixel → Colour) : Span :=
  if is_transparent upper_pixel && is_transparent lower_pixel then
    Style.paint Style.default " "
  else if is_transparent upper_pixel then
    Colour.paint (color_mapper lower_pixel) "▄"
  else if is_transparent lower_pixel then
    Colour.paint (color_mapper upper_pixel) "▀"
  else
    Style.paint (Colour.on (color_mapper lower_pixel) (color_mapper upper_pixel)) "▄"

/-- `two_pixels_to_ascii_char` with the two `assert!` calls surfaced:
`none` marks an assertion failure. -/
def two_pixels_to_ascii_char_checked (upper_pixel lower_pixel : Pixel)
    (color_mapper : Pixel → Colour) : Option Span :=
  if is_transparent upper_pixel && is_transparent lower_pixel then
    some (Style.paint Style.default " ")
  else if is_transparent upper_pixel then
    if is_transparent lower_pixel then none
    else some (Colour.paint (color_mapper lower_pixel) "▄")
  else if is_transparent lower_pixel then
    if is_transparent upper_pixel then none
    else some (Colour.paint (color_mapper upper_pixel) "▀")
  else
    some (Style.paint (Colour.on (color_mapper lower_pixel) (color_mapper upper_pixel)) "▄")

/-- One iteration row of the main loop of `image_to_ascii` (main.rs:111):
the spans of columns `0..width` for the pixel rows `row` and `row + 1`,
plus the trailing newline span. -/
def row_pair_spans (img : Image) (color_mapper : Pixel → Colour)
    (upper_of lower_of : Nat → Pixel) : List Span :=
  ((List.range img.width).map (fun col =>
    two_pixels_to_ascii_char (upper_of col) (lower_of col) color_mapper))
  ++ [newline_span]

/-- The `loop` of `image_to_ascii` (main.rs:107): pairs rows
`(row, row + 1)` in steps of two until `row + 1 ≥ height`. -/
def image_rows_loop (img : Image) (color_mapper : Pixel → Colour) (row : Nat) : List Span :=
  if h : row + 1 ≥ img.height then []
  else
    row_pair_spans img color_mapper (fun col => img.pix col row) (fun col => img.pix col (row + 1))
    ++ image_rows_loop img color_mapper (row + 2)
termination_by img.height - row
decreasing_by simp only [not_le] at h; omega

/-- `fn image_to_ascii(image, vertical_gravity, color_mapper)` (main.rs:90). -/
def image_to_ascii (img : Image) (vertical_gravity : VerticalDirection)
    (color_mapper : Pixel → Colour) : List Span :=
  (if img.height % 2 ≠ 0 ∧ vertical_gravity = VerticalDirection.DOWN then
    row_pair_spans img color_mapper (fun _ => transparent_pixel) (fun col => img.pix col 0)
  else [])
  ++ image_rows_loop img color_mapper
      (if img.height % 2 ≠ 0 ∧ vertical_gravity = VerticalDirection.DOWN then 1 else 0)
  ++ (if img.height % 2 ≠ 0 ∧ vertical_gravity = VerticalDirection.UP then
    row_pair_spans img color_mapper (fun col => img.pix col (img.height - 1)) (fun _ => transparent_pixel)
  else [])

/-- `ansi_term` foreground SGR code of a colour (`write_foreground_code`). -/
def foreground_code : Colour → String
  | .Black => "30"
  | .Red => "31"
  | .Green => "32"
  | .Yellow => "33"
  | .Blue => "34"
  | .Purple => "35"
  | .Cyan => "36"
  | .White => "37"
  | .Fixed n => "38;5;" ++ toString n
  | .RGB r g b => "38;2;" ++ toString r ++ ";" ++ toString g ++ ";" ++ toString b

/-- `ansi_term` background SGR code of a colour (`write_background_code`). -/
def background_code : Colour → String
  | .Black => "40"
  | .Red => "41"
  | .Green => "42"
  | .Yellow => "43"
  | .Blue => "44"
  | .Purple => "45"
  | .Cyan => "46"
  | .White => "47"
  | .Fixed n => "48;5;" ++ toString n
  | .RGB r g b => "48;2;" ++ toString r ++ ";" ++ toString g ++ ";" ++ toString b

/-- One SGR parameter as it appears inside an escape sequence. -/
inductive Sgr where
  | Reset
  | Fg (c : Colour)
  | Bg (c : Colour)
deriving DecidableEq

/-- The characters of one SGR parameter. -/
def sgr_code : Sgr → String
  | .Reset => "0"
  | .Fg c => foreground_code c
  | .Bg c => background_code c

/-- A chunk of emitter output: one complete `ESC [ … m` control sequence,
or literal text. -/
inductive Cmd where
  | Ctrl (g : List Sgr)
  | Txt (s : String)
deriving DecidableEq

/-- The `;`-separated parameter list of one control sequence. -/
def sgr_seq_str : List Sgr → String
  | [] => ""
  | [s] => sgr_code s
  | s :: rest => sgr_code s ++ ";" ++ sgr_seq_str rest

/-- The character stream of one control sequence: `ESC [`, the `;`-separated
parameters, `m`. -/
def ctrl_str (g : List Sgr) : String :=
  "\x1b[" ++ sgr_seq_str g ++ "m"

/-- The character stream of a chunk. -/
def cmd_str : Cmd → String
  | .Ctrl g => ctrl_str g
  | .Txt s => s

/-- The character stream of a chunk list. -/
def cmds_str : List Cmd → String
  | [] => ""
  | c :: l => cmd_str c ++ cmds_str l

/-- `ansi_term` `Style::prefix` (`write_prefix`) restricted to the
foreground/background slots: nothing for the plain style, otherwise one
escape sequence carrying the background code (if any) then the foreground
code (if any), in that order. -/
def activation_cmds (st : Style) : List Cmd :=
  if st = Style.default then []
  else [Cmd.Ctrl ((st.background.toList.map Sgr.Bg) ++ (st.foreground.toList.map Sgr.Fg))]

/-- `ansi_term` `Style::suffix`: nothing for the plain style, otherwise one
reset sequence `ESC [ 0 m`. -/
def deactivation_cmds (st : Style) : List Cmd :=
  if st = Style.default then [] else [Cmd.Ctrl [Sgr.Reset]]

/-- `ansi_term` `Difference` (difference.rs): what must be written to move
from one active style to another. -/
inductive StyleDifference where
  | NoDifference
  | ExtraStyles (st : Style)
  | Reset
deriving DecidableEq

/-- `ansi_term` `Difference::between`, restricted to the two colour slots:
equal styles need nothing; a style that switches a slot **off** forces a
reset; otherwise only the changed slots are re-emitted. -/
def difference_between (first next : Style) : StyleDifference :=
  if first = next then .NoDifference
  else if (first.foreground.isSome && next.foreground.isNone) ||
      (first.background.isSome && next.background.isNone) then .Reset
  else .ExtraStyles
    ⟨if first.foreground ≠ next.foreground then next.foreground else none,
     if first.background ≠ next.background then next.background else none⟩

/-- `ansi_term` `Style::infix` as written by its `Display`: nothing, the
prefix of the extra styles, or a reset followed by the full prefix of the
next style. -/
def transition_cmds (first next : Style) : List Cmd :=
  match difference_between first next with
  | .NoDifference => []
  | .ExtraStyles st => activation_cmds st
  | .Reset => Cmd.Ctrl [Sgr.Reset] :: activation_cmds next

/-- The `for` loop plus final suffix of
`write_with_minimal_control_sequences` (bash_syntax.rs:13–20), at chunk
level: each span writes the minimal transition from the previous style then
its text; after the last span the previous style (= the last span's style)
is deactivated. -/
def min_cmds_loop (previous_style : Style) : List Span → List Cmd
  | [] => deactivation_cmds previous_style
  | sp :: rest => transition_cmds previous_style sp.style ++ Cmd.Txt sp.text :: min_cmds_loop sp.style rest

/-- `write_with_minimal_control_sequences` (bash_syntax.rs:5) at chunk
level: empty output for no spans, else the first span's full activation,
then the loop (whose first transition is `NoDifference`). -/
def minimal_cmds (spans : List Span) : List Cmd :=
  match spans with
  | [] => []
  | sp :: rest => activation_cmds sp.style ++ min_cmds_loop sp.style (sp :: rest)

/-- `pub fn write_with_minimal_control_sequences(spans, fmt)`
(bash_syntax.rs:5): the exact character stream the source writes into the
formatter. -/
def write_with_minimal_control_sequences (spans : List Span) : String :=
  cmds_str (minimal_cmds spans)

/-- `Display` of one `ANSIGenericString`: style prefix, text, style suffix.
`main` prints each span this way (main.rs:87). -/
def span_display (sp : Span) : String :=
  cmds_str (activation_cmds sp.style) ++ sp.text ++ cmds_str (deactivation_cmds sp.style)

/-- Modelled from the spec: the naive emitter that activates and then
deactivates every span's full style independently. -/
def naive_emit : List Span → String
  | [] => ""
  | sp :: rest => span_display sp ++ naive_emit rest

/-- Modelled from the spec: the naive emitter at chunk level. -/
def naive_cmds (spans : List Span) : List Cmd :=
  spans.flatMap (fun sp => activation_cmds sp.style ++ Cmd.Txt sp.text :: deactivation_cmds sp.style)

/-- Modelled from the spec: the reference escape-sequence interpreter's
state update for one SGR parameter — `0` clears both slots, a foreground
or background code sets its slot. -/
def apply_sgr (st : Style) : Sgr → Style
  | .Reset => Style.default
  | .Fg c => ⟨some c, st.background⟩
  | .Bg c => ⟨st.foreground, some c⟩

/-- Modelled from the spec: the interpreter's state after a chunk list. -/
def run_cmds (st : Style) : List Cmd → Style
  | [] => st
  | .Ctrl g :: rest => run_cmds (g.foldl apply_sgr st) rest
  | .Txt _ :: rest => run_cmds st rest

/-- Modelled from the spec: the rendered visual effect of a chunk list —
every text character paired with the style active when it is printed. -/
def rendered_chars : Style → List Cmd → List (Char × Style)
  | _, [] => []
  | st, .Ctrl g :: rest => rendered_chars (g.foldl apply_sgr st) rest
  | st, .Txt s :: rest => s.data.map (fun ch => (ch, st)) ++ rendered_chars st rest

/-- The document `main` prints for one fixed colour mode: every span of
`image_to_ascii` displayed in order (main.rs:86–87). -/
def render_document (mode : ColorMode) (img : Image) (g : VerticalDirection) : String :=
  String.join ((image_to_ascii img g mode.color_mapper).map span_display)

/-- The whole program output as a function of the `--color-mode` argument,
the `COLORTERM` environment variable and the (already decoded and resized)
image: parse the mode (main.rs:38), render once, print (main.rs:70–88). -/
def program_output (color_mode_arg : String) (colorterm : Option String)
    (img : Image) (g : VerticalDirection) : Except String String :=
  match ColorMode.from_str color_mode_arg colorterm with
  | .ok mode => .ok (render_document mode img g)
  | .error e => .error e

/-- The mode `auto` resolves to, read off `ColorMode::from_str`'s `auto`
arm (main.rs:47–55). -/
def auto_detected_mode (colorterm : Option String) : ColorMode :=
  match colorterm with
  | some ct => if ct = "truecolor" ∨ ct = "24bit" then ColorMode.TrueColor else ColorMode.ANSI
  | none => ColorMode.ANSI

/-- Modelled from the spec: the claimed auto-detect shell script — three
fully pre-rendered documents embedded in a three-branch run-time
conditional (first branch: high-fidelity-colour indicator, emits the
TrueColor document; second: 256-colour indicator, Indexed256 document;
else: Basic8 document).  No such script appears anywhere in the source;
this definition exists only to state and refute claim C2. -/
def auto_detect_script (truecolor_doc indexed256_doc basic8_doc : String) : String :=
  "if [ \"$COLORTERM\" = \"truecolor\" ] || [ \"$COLORTERM\" = \"24bit\" ]; then\n  echo -e \""
  ++ truecolor_doc
  ++ "\"\nelif [ \"$(tput colors)\" = \"256\" ]; then\n  echo -e \""
  ++ indexed256_doc
  ++ "\"\nelse\n  echo -e \""
  ++ basic8_doc
  ++ "\"\nfi\n"

/-- Rust `char::is_ascii`: code point at most `0x7F`. -/
def char_is_ascii (c : Char) : Bool := c.toNat ≤ 0x7F

/-- Rust `char::is_control`: the Unicode `Cc` category,
`U+0000..U+001F` and `U+007F..U+009F`. -/
def char_is_control (c : Char) : Bool :=
  c.toNat < 0x20 || (0x7F ≤ c.toNat && c.toNat ≤ 0x9F)

/-- One lowercase hex digit. -/
def hex_digit_char (n : Nat) : Char :=
  if n < 10 then Char.ofNat (48 + n) else Char.ofNat (87 + n)

/-- Lowercase hex digits, most significant first, with explicit fuel (the
fuel argument only makes the recursion structural; `fuel > n` is always
enough, see `to_hex`). -/
def to_hex_core : Nat → Nat → List Char
  | 0, _ => []
  | fuel + 1, n =>
      if n < 16 then [hex_digit_char n]
      else to_hex_core fuel (n / 16) ++ [hex_digit_char (n % 16)]

/-- Lowercase hex digits of `n`, most significant first, no leading zeros
(`n = 0` gives `"0"`). -/
def to_hex (n : Nat) : List Char := to_hex_core (n + 1) n

/-- Rust `format!("{:04x}", n)`: hex digits zero-padded on the left to a
minimum width of 4 (wider values keep all their digits). -/
def format_04x (n : Nat) : List Char :=
  List.replicate (4 - (to_hex n).length) '0' ++ to_hex n

/-- The `match` body of the escaping loop (bash_syntax.rs:27–52) for one
character: the chunk of output characters it contributes.  `\` and `"` push
a backslash and fall through to pushing the character itself; ESC, LF and
GS (`0x1D` — the source really matches `'\u{1d}'`, not CR) map to two-char
escapes; any remaining non-ASCII or control character becomes
`\u` + `{:04x}`; anything else is copied. -/
def escape_char (c : Char) : List Char :=
  if c = '\\' ∨ c = '"' then ['\\', c]
  else if c = '\x1b' then ['\\', 'e']
  else if c = '\n' then ['\\', 'n']
  else if c = '\x1d' then ['\\', 'r']
  else if !char_is_ascii c || char_is_control c then '\\' :: 'u' :: format_04x c.toNat
  else [c]

/-- `pub fn escape_for_string_content(payload: &String) -> String`
(bash_syntax.rs:23): the loop over `payload.chars()` pushing each
character's chunk. -/
def escape_for_string_content (payload : String) : String :=
  String.mk (payload.data.flatMap escape_char)

theorem pick_closest_from_eq_argmin {C : Type} (color : CColor) (choices : List C)
    (f : C → Nat × Nat × Nat) :
    pick_closest_from color choices f =
      List.argmin (fun c => euclidian_distance (into_truecolor color) (f c)) choices := by
  have hstep : (fun (acc : Option C) candidate =>
      match acc with
      | none => some candidate
      | some best =>
          if euclidian_distance (into_truecolor color) (f candidate) <
              euclidian_distance (into_truecolor color) (f best)
            then some candidate else some best)
      = List.argAux (fun b c =>
          euclidian_distance (into_truecolor color) (f b) <
            euclidian_distance (into_truecolor color) (f c)) := by
    funext acc cand
    cases acc <;> rfl
  simp only [pick_closest_from, List.argmin, hstep]

/-- The RGB triple of a pixel (channels 0..2). -/
def pixel_rgb (p : Pixel) : Nat × Nat × Nat := (p.r, p.g, p.b)

/-- An opaque pixel with the given RGB triple. -/
def pixel_of_rgb (t : Nat × Nat × Nat) : Pixel := ⟨t.1, t.2.1, t.2.2, 255⟩

/-- The reference RGB of 256-palette entry `i`. -/
def palette_rgb (i : Nat) : Nat × Nat × Nat := ansi_color_to_truecolor.getD i (0, 0, 0)

/-- The RGB this repository associates with each output colour: named
colours carry `into_truecolor`'s reference values, `Fixed` entries the
palette table's. -/
def colour_rgb : Colour → Nat × Nat × Nat
  | .Black => (0, 0, 0)
  | .Red => (205, 0, 0)
  | .Green => (0, 205, 0)
  | .Yellow => (205, 205, 0)
  | .Blue => (0, 0, 238)
  | .Purple => (205, 0, 205)
  | .Cyan => (0, 205, 205)
  | .White => (229, 229, 229)
  | .Fixed n => palette_rgb n
  | .RGB r g b => (r, g, b)

theorem euclidian_distance_self (a : Nat × Nat × Nat) : euclidian_distance a a = 0 := by
  simp [euclidian_distance]

theorem euclidian_distance_eq_zero {a b : Nat × Nat × Nat}
    (h : euclidian_distance a b = 0) : a = b := by
  obtain ⟨a1, a2, a3⟩ := a
  obtain ⟨b1, b2, b3⟩ := b
  simp only [euclidian_distance, pow_two] at h
  have h1 : max a1 b1 - min a1 b1 = 0 := by nlinarith [Nat.zero_le (max a1 b1 - min a1 b1)]
  have h2 : max a2 b2 - min a2 b2 = 0 := by nlinarith [Nat.zero_le (max a2 b2 - min a2 b2)]
  have h3 : max a3 b3 - min a3 b3 = 0 := by nlinarith [Nat.zero_le (max a3 b3 - min a3 b3)]
  simp only [Prod.mk.injEq]
  omega

theorem pick_closest_from_mem {C : Type} {color : CColor} {choices : List C}
    {f : C → Nat × Nat × Nat} {m : C}
    (h : pick_closest_from color choices f = some m) : m ∈ choices := by
  rw [pick_closest_from_eq_argmin] at h
  exact List.argmin_mem (show m ∈ _ from h)

theorem pick_closest_from_isSome {C : Type} (color : CColor) {choices : List C}
    (hne : choices ≠ []) (f : C → Nat × Nat × Nat) :
    (pick_closest_from color choices f).isSome := by
  rw [pick_closest_from_eq_argmin]
  cases hx : List.argmin (fun c => euclidian_distance (into_truecolor color) (f c)) choices with
  | none => exact absurd (List.argmin_eq_none.mp hx) hne
  | some m => rfl

theorem ansi_colors_ne_nil : ansi_colors ≠ [] := by
  intro h
  have := congrArg List.length h
  simp [ansi_colors] at this

theorem ansi_colors_nodup : ansi_colors.Nodup :=
  (List.nodup_range 256).map (fun a b hab => by injection hab)

theorem mem_ansi_colors {c : Colour} : c ∈ ansi_colors ↔ ∃ i, i < 256 ∧ c = Colour.Fixed i := by
  simp only [ansi_colors, List.mem_map, List.mem_range]
  constructor
  · rintro ⟨i, hi, rfl⟩
    exact ⟨i, hi, rfl⟩
  · rintro ⟨i, hi, rfl⟩
    exact ⟨i, hi, rfl⟩

theorem ansi_colors_indexOf_fixed {i : Nat} (h : i < 256) :
    ansi_colors.indexOf (Colour.Fixed i) = i := by
  have hlen : i < ansi_colors.length := by simpa [ansi_colors] using h
  have hget : ansi_colors[i] = Colour.Fixed i := by simp [ansi_colors]
  have := List.indexOf_getElem ansi_colors_nodup i hlen
  rwa [hget] at this

theorem pick_closest_256_spec {p : Pixel} {m : Colour}
    (h : pick_closest_from (CColor.TrueColor p.r p.g p.b) ansi_colors fixed_to_truecolor
      = some m) :
    ∃ i, i < 256 ∧ m = Colour.Fixed i ∧
      (∀ j, j < 256 →
        euclidian_distance (pixel_rgb p) (palette_rgb i) ≤
          euclidian_distance (pixel_rgb p) (palette_rgb j)) ∧
      (∀ j, j < 256 →
        euclidian_distance (pixel_rgb p) (palette_rgb j) ≤
          euclidian_distance (pixel_rgb p) (palette_rgb i) → i ≤ j) := by
  rw [pick_closest_from_eq_argmin] at h
  have hmem : m ∈ ansi_colors := List.argmin_mem (show m ∈ _ from h)
  obtain ⟨i, hi256, rfl⟩ := mem_ansi_colors.mp hmem
  refine ⟨i, hi256, rfl, ?_, ?_⟩
  · intro j hj
    have hmemj : Colour.Fixed j ∈ ansi_colors := mem_ansi_colors.mpr ⟨j, hj, rfl⟩
    have := List.le_of_mem_argmin hmemj (show _ ∈ _ from h)
    exact this
  · intro j hj hle
    have hmemj : Colour.Fixed j ∈ ansi_colors := mem_ansi_colors.mpr ⟨j, hj, rfl⟩
    have hidx := List.index_of_argmin (show _ ∈ _ from h) hmemj hle
    rwa [ansi_colors_indexOf_fixed hi256, ansi_colors_indexOf_fixed hj] at hidx

theorem color_mapping_256_spec (p : Pixel) :
    ∃ i, i < 256 ∧ color_mapping_256 p = Colour.Fixed i ∧
      (∀ j, j < 256 →
        euclidian_distance (pixel_rgb p) (palette_rgb i) ≤
          euclidian_distance (pixel_rgb p) (palette_rgb j)) ∧
      (∀ j, j < 256 →
        euclidian_distance (pixel_rgb p) (palette_rgb j) ≤
          euclidian_distance (pixel_rgb p) (palette_rgb i) → i ≤ j) := by
  cases hp : pick_closest_from (CColor.TrueColor p.r p.g p.b) ansi_colors fixed_to_truecolor with
  | none =>
      have := pick_closest_from_isSome (CColor.TrueColor p.r p.g p.b) ansi_colors_ne_nil
        fixed_to_truecolor
      rw [hp] at this
      exact absurd this (by simp)
  | some m =>
      obtain ⟨i, hi256, rfl, hmin, hfirst⟩ := pick_closest_256_spec hp
      refine ⟨i, hi256, ?_, hmin, hfirst⟩
      unfold color_mapping_256
      rw [hp]

theorem color_mapping_256_idem (p : Pixel) :
    color_mapping_256 (pixel_of_rgb (colour_rgb (color_mapping_256 p))) = color_mapping_256 p := by
  obtain ⟨i, hi256, heq, hmin, hfirst⟩ := color_mapping_256_spec p
  rw [heq]
  set q : Pixel := pixel_of_rgb (colour_rgb (Colour.Fixed i)) with hq
  obtain ⟨i2, hi2, heq2, hmin2, hfirst2⟩ := color_mapping_256_spec q
  have hqrgb : pixel_rgb q = palette_rgb i := rfl
  have hz : euclidian_distance (pixel_rgb q) (palette_rgb i2) = 0 := by
    have h1 := hmin2 i hi256
    rw [hqrgb] at h1 ⊢
    have : euclidian_distance (palette_rgb i) (palette_rgb i) = 0 := euclidian_distance_self _
    omega
  have hpal : palette_rgb i2 = palette_rgb i := by
    have := euclidian_distance_eq_zero (a := pixel_rgb q) (b := palette_rgb i2) hz
    rw [hqrgb] at this
    rw [← this]
  have hle1 : i2 ≤ i := by
    refine hfirst2 i hi256 ?_
    rw [hqrgb]
    simp [euclidian_distance_self]
  have hle2 : i ≤ i2 := by
    refine hfirst i2 hi2 ?_
    rw [hpal]
  have : i2 = i := le_antisymm hle1 hle2
  rw [heq2, this]

theorem color_mapping_256_exact {i : Nat} (hi : i < 256) :
    ∃ j, j ≤ i ∧ palette_rgb j = palette_rgb i ∧
      color_mapping_256 (pixel_of_rgb (palette_rgb i)) = Colour.Fixed j ∧
      euclidian_distance (palette_rgb i) (palette_rgb j) = 0 := by
  set q : Pixel := pixel_of_rgb (palette_rgb i) with hqdef
  obtain ⟨j, hj, heq, hmin, hfirst⟩ := color_mapping_256_spec q
  have hqrgb : pixel_rgb q = palette_rgb i := rfl
  have hz : euclidian_distance (pixel_rgb q) (palette_rgb j) = 0 := by
    have h1 := hmin i hi
    rw [hqrgb] at h1 ⊢
    have : euclidian_distance (palette_rgb i) (palette_rgb i) = 0 := euclidian_distance_self _
    omega
  have hpal : palette_rgb j = palette_rgb i := by
    have := euclidian_distance_eq_zero (a := pixel_rgb q) (b := palette_rgb j) hz
    rw [hqrgb] at this
    rw [← this]
  refine ⟨j, ?_, hpal, heq, ?_⟩
  · refine hfirst i hi ?_
    rw [hqrgb]
    simp [euclidian_distance_self]
  · rw [← hqrgb, hz]

theorem color_mapping_ansi_black_or_red (p : Pixel) :
    color_mapping_ansi p = Colour.Black ∨ color_mapping_ansi p = Colour.Red := by
  unfold color_mapping_ansi
  cases hp : pick_closest_from (CColor.TrueColor p.r p.g p.b) basic_candidates into_truecolor with
  | none => left; rfl
  | some c => cases c <;> simp

theorem color_mapping_ansi_idem (p : Pixel) :
    color_mapping_ansi (pixel_of_rgb (colour_rgb (color_mapping_ansi p))) = color_mapping_ansi p := by
  rcases color_mapping_ansi_black_or_red p with h | h <;> rw [h] <;> decide

theorem euclidian_distance_checked_isSome (ca cb : Nat × Nat × Nat) :
    (euclidian_distance_checked ca cb).isSome := by
  simp [euclidian_distance_checked, checked_sub, min_le_max]

theorem two_pixels_to_ascii_char_checked_isSome (u l : Pixel) (m : Pixel → Colour) :
    (two_pixels_to_ascii_char_checked u l m).isSome := by
  unfold two_pixels_to_ascii_char_checked
  cases hu : is_transparent u <;> cases hl : is_transparent l <;> simp [hu, hl]

theorem color_mapping_ansi_checked_isSome (p : Pixel) :
    (color_mapping_ansi_checked p).isSome := by
  cases hp : pick_closest_from (CColor.TrueColor p.r p.g p.b) basic_candidates into_truecolor with
  | none =>
      have := pick_closest_from_isSome (CColor.TrueColor p.r p.g p.b)
        (show basic_candidates ≠ [] by simp [basic_candidates]) into_truecolor
      rw [hp] at this
      exact absurd this (by simp)
  | some c =>
      have hmem : c ∈ basic_candidates := pick_closest_from_mem hp
      unfold color_mapping_ansi_checked
      rw [hp]
      fin_cases hmem <;> simp

theorem ansi_color_to_truecolor_length : ansi_color_to_truecolor.length = 256 := by decide

theorem color_mapping_256_checked_isSome (p : Pixel) :
    (color_mapping_256_checked p).isSome := by
  have hall : ansi_colors.all (fun c => (fixed_to_truecolor_checked c).isSome) = true := by
    rw [List.all_eq_true]
    intro c hc
    obtain ⟨i, hi, rfl⟩ := mem_ansi_colors.mp hc
    simp only [fixed_to_truecolor_checked, decide_eq_true_eq]
    rw [Option.isSome_iff_ne_none]
    intro hnone
    rw [List.get?_eq_none] at hnone
    rw [ansi_color_to_truecolor_length] at hnone
    omega
  unfold color_mapping_256_checked pick_closest_from_checked
  rw [if_pos hall]
  cases hp : pick_closest_from (CColor.TrueColor p.r p.g p.b) ansi_colors
      (fun c => (fixed_to_truecolor_checked c).getD (0, 0, 0)) with
  | none =>
      have := pick_closest_from_isSome (CColor.TrueColor p.r p.g p.b) ansi_colors_ne_nil
        (fun c => (fixed_to_truecolor_checked c).getD (0, 0, 0))
      rw [hp] at this
      exact absurd this (by simp)
  | some c => simp

/-- The pixel a row source delivers at a column: `none` is the synthesized
fully-transparent virtual row, `some r` the real pixel row `r`. -/
def source_pixel (img : Image) (src : Option Nat) (col : Nat) : Pixel :=
  match src with
  | none => transparent_pixel
  | some r => img.pix col r

/-- One output row for a pair of row sources: `width` glyph spans followed
by the unstyled newline span. -/
def render_row (img : Image) (mapper : Pixel → Colour)
    (pr : Option Nat × Option Nat) : List Span :=
  ((List.range img.width).map (fun col =>
    two_pixels_to_ascii_char (source_pixel img pr.1 col) (source_pixel img pr.2 col) mapper))
  ++ [newline_span]

/-- Modelled from the spec: the claimed row pairing — `PadBottom`
(= `DOWN`) puts the half row (virtual upper, real row 0) first;
`PadTop` (= `UP`) puts the half row (last real row, virtual lower) last;
even heights pair `(2k, 2k+1)` throughout. -/
def spec_row_pairs (h : Nat) (g : VerticalDirection) : List (Option Nat × Option Nat) :=
  if h % 2 = 1 then
    match g with
    | .DOWN => (none, some 0) ::
        (List.range ((h - 1) / 2)).map (fun k => (some (2 * k + 1), some (2 * k + 2)))
    | .UP => (List.range ((h - 1) / 2)).map (fun k => (some (2 * k), some (2 * k + 1)))
        ++ [(some (h - 1), none)]
  else (List.range (h / 2)).map (fun k => (some (2 * k), some (2 * k + 1)))

theorem image_rows_loop_stop (img : Image) (mapper : Pixel → Colour) (row : Nat)
    (h : img.height ≤ row + 1) : image_rows_loop img mapper row = [] := by
  rw [image_rows_loop]
  simp [h]

theorem image_rows_loop_step (img : Image) (mapper : Pixel → Colour) (row : Nat)
    (h : row + 1 < img.height) :
    image_rows_loop img mapper row =
      render_row img mapper (some row, some (row + 1)) ++ image_rows_loop img mapper (row + 2) := by
  rw [image_rows_loop]
  rw [dif_neg (by omega)]
  rfl

theorem image_rows_loop_pairs (img : Image) (mapper : Pixel → Colour) :
    ∀ n row, img.height - row = n →
      image_rows_loop img mapper row =
        ((List.range ((img.height - row) / 2)).map
          (fun k => ((some (row + 2 * k) : Option Nat), (some (row + 2 * k + 1) : Option Nat)))).flatMap
          (render_row img mapper) := by
  intro n
  induction n using Nat.strong_induction_on with
  | _ n ih =>
    intro row hrow
    by_cases hstop : img.height ≤ row + 1
    · rw [image_rows_loop_stop img mapper row hstop]
      have : (img.height - row) / 2 = 0 := by omega
      rw [this]
      simp
    · push_neg at hstop
      rw [image_rows_loop_step img mapper row hstop]
      have hn2 : img.height - (row + 2) < n := by omega
      rw [ih (img.height - (row + 2)) hn2 (row + 2) rfl]
      have hdiv : (img.height - row) / 2 = ((img.height - (row + 2)) / 2) + 1 := by omega
      rw [hdiv, List.range_succ_eq_map, List.map_cons, List.flatMap_cons]
      congr 1
      rw [List.map_map]
      congr 1
      apply List.map_congr_left
      intro k _
      simp only [Function.comp_apply, Prod.mk.injEq, Option.some.injEq]
      omega

theorem image_to_ascii_eq_rows (img : Image) (g : VerticalDirection) (mapper : Pixel → Colour) :
    image_to_ascii img g mapper = (spec_row_pairs img.height g).flatMap (render_row img mapper) := by
  unfold image_to_ascii spec_row_pairs
  by_cases hodd : img.height % 2 = 1
  · cases g with
    | DOWN =>
        have c1 : img.height % 2 ≠ 0 ∧ VerticalDirection.DOWN = VerticalDirection.DOWN :=
          ⟨by omega, rfl⟩
        rw [if_pos c1, if_pos c1,
          if_neg (show ¬(img.height % 2 ≠ 0 ∧ VerticalDirection.DOWN = VerticalDirection.UP) by
            rintro ⟨-, hud⟩; exact absurd hud (by simp)),
          if_pos hodd]
        rw [List.append_nil]
        rw [image_rows_loop_pairs img mapper (img.height - 1) 1 rfl]
        rw [List.flatMap_cons]
        congr 1
        congr 1
        apply List.map_congr_left
        intro k _
        simp only [Prod.mk.injEq, Option.some.injEq]
        omega
    | UP =>
        have c3 : img.height % 2 ≠ 0 ∧ VerticalDirection.UP = VerticalDirection.UP :=
          ⟨by omega, rfl⟩
        rw [if_neg (show ¬(img.height % 2 ≠ 0 ∧ VerticalDirection.UP = VerticalDirection.DOWN) by
            rintro ⟨-, hud⟩; exact absurd hud (by simp)),
          if_neg (show ¬(img.height % 2 ≠ 0 ∧ VerticalDirection.UP = VerticalDirection.DOWN) by
            rintro ⟨-, hud⟩; exact absurd hud (by simp)),
          if_pos c3, if_pos hodd]
        rw [List.nil_append]
        rw [image_rows_loop_pairs img mapper img.height 0 rfl]
        rw [List.flatMap_append]
        congr 1
        · have hdiv : (img.height - 0) / 2 = (img.height - 1) / 2 := by omega
          rw [hdiv]
          congr 1
          apply List.map_congr_left
          intro k _
          simp only [Prod.mk.injEq, Option.some.injEq]
          omega
        · rw [List.flatMap_cons, List.flatMap_nil, List.append_nil]
          rfl
  · have hne : ¬(img.height % 2 ≠ 0 ∧ g = VerticalDirection.DOWN) := by
      rintro ⟨hmm, -⟩; omega
    have hne2 : ¬(img.height % 2 ≠ 0 ∧ g = VerticalDirection.UP) := by
      rintro ⟨hmm, -⟩; omega
    rw [if_neg hne, if_neg hne, if_neg hne2, if_neg hodd]
    rw [List.nil_append, List.append_nil]
    rw [image_rows_loop_pairs img mapper img.height 0 rfl]
    have hdiv : (img.height - 0) / 2 = img.height / 2 := by omega
    rw [hdiv]
    congr 1
    apply List.map_congr_left
    intro k _
    simp only [Prod.mk.injEq, Option.some.injEq]
    omega

theorem spec_row_pairs_length (h : Nat) (g : VerticalDirection) :
    (spec_row_pairs h g).length = (h + 1) / 2 := by
  unfold spec_row_pairs
  by_cases hodd : h % 2 = 1
  · rw [if_pos hodd]
    cases g <;> simp <;> omega
  · rw [if_neg hodd]
    simp
    omega

theorem render_row_length (img : Image) (mapper : Pixel → Colour) (pr : Option Nat × Option Nat) :
    (render_row img mapper pr).length = img.width + 1 := by
  simp [render_row]

theorem render_row_getLast (img : Image) (mapper : Pixel → Colour) (pr : Option Nat × Option Nat) :
    (render_row img mapper pr).getLast? = some newline_span := by
  simp [render_row]

theorem spec_row_pairs_even (h : Nat) (hmod : h % 2 = 0) (g g' : VerticalDirection) :
    spec_row_pairs h g = spec_row_pairs h g' := by
  unfold spec_row_pairs
  rw [if_neg (by omega), if_neg (by omega)]

theorem run_cmds_append (a b : List Cmd) : ∀ st, run_cmds st (a ++ b) = run_cmds (run_cmds st a) b := by
  induction a with
  | nil => intro st; rfl
  | cons c rest ih =>
      intro st
      cases c with
      | Ctrl g => simp [run_cmds, ih]
      | Txt s => simp [run_cmds, ih]

theorem rendered_chars_append (a b : List Cmd) : ∀ st,
    rendered_chars st (a ++ b) = rendered_chars st a ++ rendered_chars (run_cmds st a) b := by
  induction a with
  | nil => intro st; rfl
  | cons c rest ih =>
      intro st
      cases c with
      | Ctrl g => simp [rendered_chars, run_cmds, ih]
      | Txt s => simp [rendered_chars, run_cmds, ih]

theorem run_activation_general (st prev : Style) :
    run_cmds prev (activation_cmds st) =
      ⟨st.foreground.or prev.foreground, st.background.or prev.background⟩ := by
  unfold activation_cmds
  by_cases hd : st = Style.default
  · rw [if_pos hd]
    subst hd
    simp [run_cmds, Style.default]
  · rw [if_neg hd]
    obtain ⟨f, b⟩ := st
    cases f <;> cases b <;>
      simp_all [run_cmds, apply_sgr, Style.default, Option.or]

theorem run_activation (st : Style) : run_cmds Style.default (activation_cmds st) = st := by
  rw [run_activation_general]
  simp [Style.default]

theorem run_deactivation (st : Style) : run_cmds st (deactivation_cmds st) = Style.default := by
  unfold deactivation_cmds
  by_cases hd : st = Style.default
  · rw [if_pos hd]; exact hd
  · rw [if_neg hd]; simp [run_cmds, apply_sgr]

theorem rendered_chars_activation (st prev : Style) :
    rendered_chars prev (activation_cmds st) = [] := by
  unfold activation_cmds
  by_cases hd : st = Style.default
  · rw [if_pos hd]; rfl
  · rw [if_neg hd]; simp [rendered_chars]

theorem rendered_chars_deactivation (st prev : Style) :
    rendered_chars prev (deactivation_cmds st) = [] := by
  unfold deactivation_cmds
  by_cases hd : st = Style.default
  · rw [if_pos hd]; rfl
  · rw [if_neg hd]; simp [rendered_chars]

theorem rendered_chars_transition (first next prev : Style) :
    rendered_chars prev (transition_cmds first next) = [] := by
  unfold transition_cmds
  cases difference_between first next with
  | NoDifference => rfl
  | ExtraStyles st => exact rendered_chars_activation st prev
  | Reset =>
      show rendered_chars prev (Cmd.Ctrl [Sgr.Reset] :: activation_cmds next) = []
      simp [rendered_chars, rendered_chars_activation]

theorem or_ite_ne (x y : Option Colour) (h : ¬(x.isSome = true ∧ y = none)) :
    (if x ≠ y then y else none).or x = y := by
  by_cases hxy : x = y
  · simp [hxy]
  · rw [if_pos hxy]
    cases y with
    | none =>
        cases x with
        | none => exact absurd rfl hxy
        | some a => exact absurd ⟨rfl, rfl⟩ h
    | some c => rfl

theorem run_transition (first next : Style) :
    run_cmds first (transition_cmds first next) = next := by
  unfold transition_cmds difference_between
  by_cases heq : first = next
  · rw [if_pos heq]; exact heq
  · rw [if_neg heq]
    by_cases hr : (first.foreground.isSome && next.foreground.isNone) ||
        (first.background.isSome && next.background.isNone)
    · rw [if_pos hr]
      show run_cmds first (Cmd.Ctrl [Sgr.Reset] :: activation_cmds next) = next
      have h1 : run_cmds first (Cmd.Ctrl [Sgr.Reset] :: activation_cmds next)
          = run_cmds Style.default (activation_cmds next) := by
        simp [run_cmds, apply_sgr]
      rw [h1, run_activation]
    · rw [if_neg hr]
      show run_cmds first (activation_cmds
        ⟨if first.foreground ≠ next.foreground then next.foreground else none,
         if first.background ≠ next.background then next.background else none⟩) = next
      rw [run_activation_general]
      simp only [Bool.or_eq_true, Bool.and_eq_true, Option.isNone_iff_eq_none, not_or] at hr
      obtain ⟨hf, hb⟩ := hr
      obtain ⟨pf, pb⟩ := first
      obtain ⟨nf, nb⟩ := next
      simp only [Style.mk.injEq]
      exact ⟨or_ite_ne pf nf hf, or_ite_ne pb nb hb⟩

theorem transition_cmds_self (st : Style) : transition_cmds st st = [] := by
  unfold transition_cmds difference_between
  rw [if_pos rfl]

/-- The rendered visual effect both emitters must produce: every glyph
character paired with its span's own style. -/
def spans_glyphs (spans : List Span) : List (Char × Style) :=
  spans.flatMap (fun sp => sp.text.data.map (fun ch => (ch, sp.style)))

theorem rendered_min_cmds_loop (spans : List Span) : ∀ prev,
    rendered_chars prev (min_cmds_loop prev spans) = spans_glyphs spans := by
  induction spans with
  | nil =>
      intro prev
      simp [min_cmds_loop, rendered_chars_deactivation, spans_glyphs]
  | cons sp rest ih =>
      intro prev
      show rendered_chars prev
        (transition_cmds prev sp.style ++ Cmd.Txt sp.text :: min_cmds_loop sp.style rest) = _
      rw [rendered_chars_append, rendered_chars_transition, run_transition]
      show [] ++ (sp.text.data.map (fun ch => (ch, sp.style))
        ++ rendered_chars sp.style (min_cmds_loop sp.style rest)) = _
      rw [ih sp.style]
      simp [spans_glyphs]

theorem rendered_minimal_cmds (spans : List Span) :
    rendered_chars Style.default (minimal_cmds spans) = spans_glyphs spans := by
  cases spans with
  | nil => rfl
  | cons sp rest =>
      show rendered_chars Style.default
        (activation_cmds sp.style ++ min_cmds_loop sp.style (sp :: rest)) = _
      rw [rendered_chars_append, rendered_chars_activation, run_activation]
      rw [rendered_min_cmds_loop]
      rfl

theorem run_cmds_txt (st : Style) (s : String) (l : List Cmd) :
    run_cmds st (Cmd.Txt s :: l) = run_cmds st l := rfl

theorem rendered_chars_txt (st : Style) (s : String) (l : List Cmd) :
    rendered_chars st (Cmd.Txt s :: l) =
      s.data.map (fun ch => (ch, st)) ++ rendered_chars st l := rfl

theorem rendered_naive_cmds (spans : List Span) :
    rendered_chars Style.default (naive_cmds spans) = spans_glyphs spans := by
  induction spans with
  | nil => rfl
  | cons sp rest ih =>
      show rendered_chars Style.default
        ((activation_cmds sp.style ++ Cmd.Txt sp.text :: deactivation_cmds sp.style)
          ++ naive_cmds rest) = _
      rw [rendered_chars_append, run_cmds_append, run_activation]
      rw [rendered_chars_append, rendered_chars_activation, run_activation]
      rw [rendered_chars_txt, rendered_chars_deactivation, run_cmds_txt, run_deactivation, ih]
      simp [spans_glyphs]

theorem cmds_str_append (a b : List Cmd) : cmds_str (a ++ b) = cmds_str a ++ cmds_str b := by
  induction a with
  | nil => simp [cmds_str]
  | cons c rest ih => simp [cmds_str, ih, String.append_assoc]

theorem naive_cmds_cons (sp : Span) (rest : List Span) :
    naive_cmds (sp :: rest) =
      (activation_cmds sp.style ++ Cmd.Txt sp.text :: deactivation_cmds sp.style)
        ++ naive_cmds rest := by
  simp [naive_cmds]

theorem naive_emit_eq_cmds (spans : List Span) : naive_emit spans = cmds_str (naive_cmds spans) := by
  induction spans with
  | nil => rfl
  | cons sp rest ih =>
      rw [show naive_emit (sp :: rest) = span_display sp ++ naive_emit rest from rfl]
      rw [naive_cmds_cons, cmds_str_append, cmds_str_append, ih]
      unfold span_display
      rw [show cmds_str (Cmd.Txt sp.text :: deactivation_cmds sp.style)
        = sp.text ++ cmds_str (deactivation_cmds sp.style) from rfl]
      simp [String.append_assoc]

theorem activation_cmds_len_le (d next : Style)
    (hf : d.foreground = none ∨ d.foreground = next.foreground)
    (hb : d.background = none ∨ d.background = next.background) :
    (cmds_str (activation_cmds d)).length ≤ (cmds_str (activation_cmds next)).length := by
  obtain ⟨df, db⟩ := d
  obtain ⟨nf, nb⟩ := next
  by_cases hdd : (⟨df, db⟩ : Style) = Style.default
  · unfold activation_cmds
    rw [if_pos hdd]
    simp [cmds_str]
  · have hf2 : df = none ∨ df = nf := hf
    have hb2 : db = none ∨ db = nb := hb
    have hnd : (⟨nf, nb⟩ : Style) ≠ Style.default := by
      intro hdef
      have h1 : nf = none := congrArg Style.foreground hdef
      have h2 : nb = none := congrArg Style.background hdef
      subst h1; subst h2
      have hdf : df = none := by rcases hf2 with h | h <;> simp [h]
      have hdb : db = none := by rcases hb2 with h | h <;> simp [h]
      exact hdd (by rw [hdf, hdb]; rfl)
    unfold activation_cmds
    rw [if_neg hdd, if_neg hnd]
    cases df with
    | none =>
        cases db with
        | none => exact absurd rfl hdd
        | some b =>
            have hnb : nb = some b := by
              rcases hb2 with hb | hb
              · exact absurd hb (by simp)
              · exact hb.symm
            subst hnb
            cases nf <;>
              simp [cmds_str, cmd_str, ctrl_str, sgr_seq_str, Option.toList,
                String.length_append] <;> omega
    | some f =>
        have hnf : nf = some f := by
          rcases hf2 with hf | hf
          · exact absurd hf (by simp)
          · exact hf.symm
        subst hnf
        cases db with
        | none =>
            cases nb <;>
              simp [cmds_str, cmd_str, ctrl_str, sgr_seq_str, Option.toList,
                String.length_append] <;> omega
        | some b =>
            have hnb : nb = some b := by
              rcases hb2 with hb | hb
              · exact absurd hb (by simp)
              · exact hb.symm
            subst hnb
            exact le_refl _

theorem transition_cmds_len_le (first next : Style) :
    (cmds_str (transition_cmds first next)).length ≤
      (cmds_str (deactivation_cmds first)).length +
        (cmds_str (activation_cmds next)).length := by
  unfold transition_cmds difference_between
  by_cases heq : first = next
  · rw [if_pos heq]
    simp [cmds_str]
  · rw [if_neg heq]
    by_cases hr : (first.foreground.isSome && next.foreground.isNone) ||
        (first.background.isSome && next.background.isNone)
    · rw [if_pos hr]
      have hne : first ≠ Style.default := by
        intro hdef
        subst hdef
        simp [Style.default] at hr
      show (cmds_str (Cmd.Ctrl [Sgr.Reset] :: activation_cmds next)).length ≤ _
      unfold deactivation_cmds
      rw [if_neg hne]
      rw [show cmds_str (Cmd.Ctrl [Sgr.Reset] :: activation_cmds next)
        = ctrl_str [Sgr.Reset] ++ cmds_str (activation_cmds next) from rfl]
      simp [cmds_str, cmd_str, String.length_append]
    · rw [if_neg hr]
      show (cmds_str (activation_cmds _)).length ≤ _
      have hle := activation_cmds_len_le
        ⟨if first.foreground ≠ next.foreground then next.foreground else none,
         if first.background ≠ next.background then next.background else none⟩ next
        (by by_cases h : first.foreground = next.foreground <;> simp [h])
        (by by_cases h : first.background = next.background <;> simp [h])
      omega

theorem min_cmds_loop_len (spans : List Span) : ∀ prev,
    (cmds_str (min_cmds_loop prev spans)).length ≤
      (cmds_str (deactivation_cmds prev)).length + (cmds_str (naive_cmds spans)).length := by
  induction spans with
  | nil =>
      intro prev
      show (cmds_str (deactivation_cmds prev)).length ≤ _
      simp [naive_cmds, cmds_str]
  | cons sp rest ih =>
      intro prev
      show (cmds_str (transition_cmds prev sp.style
        ++ Cmd.Txt sp.text :: min_cmds_loop sp.style rest)).length ≤ _
      rw [naive_cmds_cons, cmds_str_append, cmds_str_append, cmds_str_append]
      rw [show cmds_str (Cmd.Txt sp.text :: min_cmds_loop sp.style rest)
        = sp.text ++ cmds_str (min_cmds_loop sp.style rest) from rfl]
      rw [show cmds_str (Cmd.Txt sp.text :: deactivation_cmds sp.style)
        = sp.text ++ cmds_str (deactivation_cmds sp.style) from rfl]
      have h1 := transition_cmds_len_le prev sp.style
      have h2 := ih sp.style
      simp only [String.length_append] at h1 h2 ⊢
      omega

theorem minimal_len_le (spans : List Span) :
    (write_with_minimal_control_sequences spans).length ≤ (naive_emit spans).length := by
  cases spans with
  | nil => exact le_refl _
  | cons sp rest =>
      show (cmds_str (activation_cmds sp.style ++ min_cmds_loop sp.style (sp :: rest))).length ≤ _
      have hself : min_cmds_loop sp.style (sp :: rest)
          = Cmd.Txt sp.text :: min_cmds_loop sp.style rest := by
        show transition_cmds sp.style sp.style ++ _ = _
        rw [transition_cmds_self]
        rfl
      rw [hself, naive_emit_eq_cmds, naive_cmds_cons, cmds_str_append, cmds_str_append,
        cmds_str_append]
      rw [show cmds_str (Cmd.Txt sp.text :: min_cmds_loop sp.style rest)
        = sp.text ++ cmds_str (min_cmds_loop sp.style rest) from rfl]
      rw [show cmds_str (Cmd.Txt sp.text :: deactivation_cmds sp.style)
        = sp.text ++ cmds_str (deactivation_cmds sp.style) from rfl]
      have h2 := min_cmds_loop_len rest sp.style
      simp only [String.length_append] at h2 ⊢
      omega

theorem rendered_write_eq_naive (spans : List Span) :
    rendered_chars Style.default (minimal_cmds spans)
      = rendered_chars Style.default (naive_cmds spans) := by
  rw [rendered_minimal_cmds, rendered_naive_cmds]

theorem hex_digit_char_range (n : Nat) (h : n < 16) :
    0x30 ≤ (hex_digit_char n).toNat ∧ (hex_digit_char n).toNat ≤ 0x66 := by
  interval_cases n <;> decide

theorem to_hex_core_chars : ∀ fuel n d, d ∈ to_hex_core fuel n →
    0x30 ≤ d.toNat ∧ d.toNat ≤ 0x66 := by
  intro fuel
  induction fuel with
  | zero => intro n d hd; simp [to_hex_core] at hd
  | succ fuel ih =>
      intro n d hd
      rw [to_hex_core] at hd
      by_cases h16 : n < 16
      · rw [if_pos h16] at hd
        simp at hd
        subst hd
        exact hex_digit_char_range n h16
      · rw [if_neg h16] at hd
        rcases List.mem_append.mp hd with hd | hd
        · exact ih _ d hd
        · simp at hd
          subst hd
          exact hex_digit_char_range _ (Nat.mod_lt _ (by omega))

theorem format_04x_chars (n : Nat) : ∀ d ∈ format_04x n,
    0x30 ≤ d.toNat ∧ d.toNat ≤ 0x66 := by
  intro d hd
  rcases List.mem_append.mp hd with hd | hd
  · rw [List.eq_of_mem_replicate hd]
    decide
  · exact to_hex_core_chars _ _ d hd

theorem escape_char_printable (c : Char) : ∀ d ∈ escape_char c,
    0x20 ≤ d.toNat ∧ d.toNat ≤ 0x7E := by
  intro d hd
  unfold escape_char at hd
  by_cases h1 : c = '\\' ∨ c = '"'
  · rw [if_pos h1] at hd
    simp only [List.mem_cons, List.not_mem_nil, or_false] at hd
    rcases h1 with rfl | rfl <;> rcases hd with rfl | rfl <;> decide
  · rw [if_neg h1] at hd
    by_cases h2 : c = '\x1b'
    · rw [if_pos h2] at hd
      simp only [List.mem_cons, List.not_mem_nil, or_false] at hd
      rcases hd with rfl | rfl <;> decide
    · rw [if_neg h2] at hd
      by_cases h3 : c = '\n'
      · rw [if_pos h3] at hd
        simp only [List.mem_cons, List.not_mem_nil, or_false] at hd
        rcases hd with rfl | rfl <;> decide
      · rw [if_neg h3] at hd
        by_cases h4 : c = '\x1d'
        · rw [if_pos h4] at hd
          simp only [List.mem_cons, List.not_mem_nil, or_false] at hd
          rcases hd with rfl | rfl <;> decide
        · rw [if_neg h4] at hd
          by_cases h5 : (!char_is_ascii c || char_is_control c) = true
          · rw [if_pos h5] at hd
            simp only [List.mem_cons] at hd
            rcases hd with rfl | rfl | h
            · decide
            · decide
            · have := format_04x_chars c.toNat d h
              omega
          · rw [if_neg h5] at hd
            simp only [List.mem_cons, List.not_mem_nil, or_false] at hd
            subst hd
            simp [char_is_ascii, char_is_control] at h5
            omega

/-- `output.get? 0` is never a quote, and every quote at position `i + 1`
has a backslash at position `i`. -/
def quote_ok (l : List Char) : Prop :=
  l.get? 0 ≠ some '"' ∧ ∀ i, l.get? (i + 1) = some '"' → l.get? i = some '\\'

theorem quote_ok_nil : quote_ok [] := by
  constructor
  · simp
  · intro i hi
    simp at hi

theorem quote_ok_of_no_quote (l : List Char) (h : ∀ d ∈ l, d ≠ '"') : quote_ok l := by
  constructor
  · intro h0
    exact h _ (List.get?_mem h0) rfl
  · intro i hi
    exact absurd rfl (h _ (List.get?_mem hi))

theorem quote_ok_append {a b : List Char} (ha : quote_ok a) (hb : quote_ok b) :
    quote_ok (a ++ b) := by
  constructor
  · cases a with
    | nil => simpa using hb.1
    | cons x xs => simpa using ha.1
  · intro i hi
    rcases lt_trichotomy (i + 1) a.length with hlt | heq | hgt
    · rw [List.get?_append hlt] at hi
      rw [List.get?_append (by omega)]
      exact ha.2 i hi
    · rw [List.get?_append_right (by omega)] at hi
      rw [show i + 1 - a.length = 0 by omega] at hi
      exact absurd hi hb.1
    · rw [List.get?_append_right (by omega)] at hi
      rw [show i + 1 - a.length = (i - a.length) + 1 by omega] at hi
      rw [List.get?_append_right (by omega)]
      exact hb.2 _ hi

theorem escape_char_quote_ok (c : Char) : quote_ok (escape_char c) := by
  unfold escape_char
  by_cases h1 : c = '\\' ∨ c = '"'
  · rw [if_pos h1]
    constructor
    · intro h0
      simp at h0
    · intro i hi
      cases i with
      | zero => rfl
      | succ n =>
          exfalso
          cases n <;> simp at hi
  · rw [if_neg h1]
    by_cases h2 : c = '\x1b'
    · rw [if_pos h2]
      exact quote_ok_of_no_quote _ (by intro d hd; simp at hd; rcases hd with rfl | rfl <;> decide)
    · rw [if_neg h2]
      by_cases h3 : c = '\n'
      · rw [if_pos h3]
        exact quote_ok_of_no_quote _ (by intro d hd; simp at hd; rcases hd with rfl | rfl <;> decide)
      · rw [if_neg h3]
        by_cases h4 : c = '\x1d'
        · rw [if_pos h4]
          exact quote_ok_of_no_quote _
            (by intro d hd; simp at hd; rcases hd with rfl | rfl <;> decide)
        · rw [if_neg h4]
          by_cases h5 : (!char_is_ascii c || char_is_control c) = true
          · rw [if_pos h5]
            refine quote_ok_of_no_quote _ ?_
            intro d hd
            simp only [List.mem_cons] at hd
            rcases hd with rfl | rfl | h
            · decide
            · decide
            · have := format_04x_chars c.toNat d h
              intro hq
              subst hq
              simp at this
          · rw [if_neg h5]
            refine quote_ok_of_no_quote _ ?_
            intro d hd
            simp only [List.mem_cons, List.not_mem_nil, or_false] at hd
            subst hd
            intro hq
            exact h1 (Or.inr hq)

theorem escape_quote_ok (s : String) : quote_ok (escape_for_string_content s).data := by
  show quote_ok (s.data.flatMap escape_char)
  induction s.data with
  | nil => exact quote_ok_nil
  | cons c rest ih =>
      rw [List.flatMap_cons]
      exact quote_ok_append (escape_char_quote_ok c) ih

theorem escape_printable (s : String) : ∀ c ∈ (escape_for_string_content s).data,
    0x20 ≤ c.toNat ∧ c.toNat ≤ 0x7E := by
  intro c hc
  rw [show (escape_for_string_content s).data = s.data.flatMap escape_char from rfl] at hc
  rw [List.mem_flatMap] at hc
  obtain ⟨x, hx, hcx⟩ := hc
  exact escape_char_printable x c hcx

/-- Modelled from the spec (as amended): the per-character rewrite rules in
the claim's own terms — backslash/quote get a preceding backslash; ESC, LF
and GS map to `\e`, `\n`, `\r`; any remaining character that is **not
printable ASCII** (code point outside `0x20..0x7E`) becomes `\u` plus its
code point in lowercase hex, zero-padded to at least four digits; all else
is copied unchanged. -/
def escape_char_spec (c : Char) : List Char :=
  if c = '\\' ∨ c = '"' then ['\\', c]
  else if c = '\x1b' then ['\\', 'e']
  else if c = '\n' then ['\\', 'n']
  else if c = '\x1d' then ['\\', 'r']
  else if ¬(0x20 ≤ c.toNat ∧ c.toNat ≤ 0x7E) then '\\' :: 'u' :: format_04x c.toNat
  else [c]

theorem escape_char_eq_spec (c : Char) : escape_char c = escape_char_spec c := by
  unfold escape_char escape_char_spec
  by_cases h1 : c = '\\' ∨ c = '"'
  · rw [if_pos h1, if_pos h1]
  · rw [if_neg h1, if_neg h1]
    by_cases h2 : c = '\x1b'
    · rw [if_pos h2, if_pos h2]
    · rw [if_neg h2, if_neg h2]
      by_cases h3 : c = '\n'
      · rw [if_pos h3, if_pos h3]
      · rw [if_neg h3, if_neg h3]
        by_cases h4 : c = '\x1d'
        · rw [if_pos h4, if_pos h4]
        · rw [if_neg h4, if_neg h4]
          by_cases h5 : (0x20 ≤ c.toNat ∧ c.toNat ≤ 0x7E)
          · rw [if_neg (show ¬((!char_is_ascii c || char_is_control c) = true) by
              simp [char_is_ascii, char_is_control]; omega)]
            rw [if_neg (not_not_intro h5)]
          · rw [if_pos (show (!char_is_ascii c || char_is_control c) = true by
              simp [char_is_ascii, char_is_control]; omega)]
            rw [if_pos h5]

theorem escape_eq_spec (s : String) :
    escape_for_string_content s = String.mk (s.data.flatMap escape_char_spec) := by
  unfold escape_for_string_content
  rw [funext escape_char_eq_spec]

theorem to_hex_core_length_le : ∀ fuel n k, n < fuel → n < 16 ^ k → 1 ≤ k →
    (to_hex_core fuel n).length ≤ k := by
  intro fuel
  induction fuel with
  | zero => intro n k h; omega
  | succ fuel ih =>
      intro n k hfuel hk hk1
      rw [to_hex_core]
      by_cases h16 : n < 16
      · rw [if_pos h16]
        simpa using hk1
      · rw [if_neg h16]
        rw [List.length_append]
        obtain ⟨k2, rfl⟩ : ∃ k2, k = k2 + 1 := ⟨k - 1, by omega⟩
        have hdiv : n / 16 < 16 ^ k2 := by
          rw [Nat.div_lt_iff_lt_mul (by norm_num)]
          calc n < 16 ^ (k2 + 1) := hk
          _ = 16 ^ k2 * 16 := by ring
        have hk2 : 1 ≤ k2 := by
          by_contra hc
          push_neg at hc
          interval_cases k2
          simp at hdiv
          omega
        have := ih (n / 16) k2 (by omega) hdiv hk2
        simp
        omega

theorem format_04x_length_of_bmp (n : Nat) (h : n < 0x10000) :
    (format_04x n).length = 4 := by
  have hle : (to_hex n).length ≤ 4 := by
    unfold to_hex
    exact to_hex_core_length_le (n + 1) n 4 (by omega) (by norm_num at h ⊢; omega) (by omega)
  unfold format_04x
  rw [List.length_append, List.length_replicate]
  omega

/-- The 1×1 fully-transparent test image used to refute claim C2. -/
def tiny_image : Image := ⟨1, 1, fun _ _ => ⟨0, 0, 0, 0⟩⟩

theorem from_str_auto (colorterm : Option String) :
    ColorMode.from_str "auto" colorterm = .ok (auto_detected_mode colorterm) := by
  unfold ColorMode.from_str auto_detected_mode
  rw [show to_lowercase "auto" = "auto" from rfl]
  rw [if_neg (by decide), if_neg (by decide), if_neg (by decide), if_pos rfl]

theorem auto_detected_mode_cases (colorterm : Option String) :
    auto_detected_mode colorterm = ColorMode.TrueColor ∨
      auto_detected_mode colorterm = ColorMode.ANSI := by
  cases colorterm with
  | none => right; rfl
  | some ct =>
      by_cases h : ct = "truecolor" ∨ ct = "24bit"
      · left
        show (if ct = "truecolor" ∨ ct = "24bit"
          then ColorMode.TrueColor else ColorMode.ANSI) = ColorMode.TrueColor
        rw [if_pos h]
      · right
        show (if ct = "truecolor" ∨ ct = "24bit"
          then ColorMode.TrueColor else ColorMode.ANSI) = ColorMode.ANSI
        rw [if_neg h]

theorem program_output_auto (colorterm : Option String) (img : Image) (g : VerticalDirection) :
    program_output "auto" colorterm img g =
      .ok (render_document (auto_detected_mode colorterm) img g) := by
  unfold program_output
  rw [from_str_auto]

theorem program_output_auto_tiny :
    program_output "auto" (some "truecolor") tiny_image VerticalDirection.UP = .ok " \n" := by
  rw [program_output_auto]
  rw [show auto_detected_mode (some "truecolor") = ColorMode.TrueColor from rfl]
  unfold render_document
  rw [image_to_ascii_eq_rows]
  rfl

theorem tiny_not_script : ¬ ∃ d1 d2 d3 : String, (" \n" : String) = auto_detect_script d1 d2 d3 := by
  rintro ⟨d1, d2, d3, h⟩
  have hlen := congrArg String.length h
  rw [show (" \n" : String).length = 2 from rfl] at hlen
  simp only [auto_detect_script, String.length_append] at hlen
  have hA : 2 < ("if [ \"$COLORTERM\" = \"truecolor\" ] || [ \"$COLORTERM\" = \"24bit\" ]; then\n  echo -e \"" : String).length := by
    decide
  omega

/-- C1: for every pixel pair and fidelity tier, the produced glyph span
follows the classification table — two transparent pixels give an unstyled
space; exactly one transparent pixel gives the half block showing the
opaque half, foreground-only, coloured by the quantized opaque pixel; two
opaque pixels give the lower-half block with foreground = quantized lower
and background = quantized upper. -/
theorem claim_C1 (mode : ColorMode) (u l : Pixel) :
    (u.a = 0 → l.a = 0 →
      two_pixels_to_ascii_char u l mode.color_mapper =
        { style := { foreground := none, background := none }, text := " " }) ∧
    (u.a = 0 → l.a ≠ 0 →
      two_pixels_to_ascii_char u l mode.color_mapper =
        { style := { foreground := some (mode.color_mapper l), background := none },
          text := "▄" }) ∧
    (u.a ≠ 0 → l.a = 0 →
      two_pixels_to_ascii_char u l mode.color_mapper =
        { style := { foreground := some (mode.color_mapper u), background := none },
          text := "▀" }) ∧
    (u.a ≠ 0 → l.a ≠ 0 →
      two_pixels_to_ascii_char u l mode.color_mapper =
        { style := { foreground := some (mode.color_mapper l),
                     background := some (mode.color_mapper u) }, text := "▄" }) := by
  refine ⟨fun hu hl => ?_, fun hu hl => ?_, fun hu hl => ?_, fun hu hl => ?_⟩ <;>
    simp [two_pixels_to_ascii_char, is_transparent, hu, hl, Colour.paint, Style.paint,
      Colour.on, Style.default]

/-- C1 witness: a transparent-over-opaque pair under the TrueColor tier. -/
theorem claim_C1_witness :
    two_pixels_to_ascii_char ⟨1, 2, 3, 0⟩ ⟨9, 8, 7, 255⟩ ColorMode.TrueColor.color_mapper =
      { style := { foreground := some (Colour.RGB 9 8 7), background := none }, text := "▄" } :=
  (claim_C1 ColorMode.TrueColor ⟨1, 2, 3, 0⟩ ⟨9, 8, 7, 255⟩).2.1 rfl (by decide)

/-- C2 counterexample: in `auto` mode the program emits a single directly
rendered document — for the 1×1 transparent image with
`COLORTERM=truecolor` the entire output is the two characters `" \n"`,
which cannot be the claimed three-branch script embedding three
pre-rendered documents. -/
theorem claim_C2_counterexample :
    program_output "auto" (some "truecolor") tiny_image VerticalDirection.UP = .ok " \n" ∧
    ¬ ∃ d1 d2 d3 : String, (" \n" : String) = auto_detect_script d1 d2 d3 :=
  ⟨program_output_auto_tiny, tiny_not_script⟩

/-- C2 (amended): when the fidelity choice is `auto`, detection happens at
**generation** time — `COLORTERM` equal to `truecolor` or `24bit` selects
the TrueColor tier, anything else (including unset) the Basic8 tier, and
Indexed256 is never auto-selected; the program output is the single
directly rendered document of the selected tier, not a script. -/
theorem claim_C2_amended (colorterm : Option String) (img : Image) (g : VerticalDirection) :
    ColorMode.from_str "auto" colorterm = .ok (auto_detected_mode colorterm) ∧
    (auto_detected_mode colorterm = ColorMode.TrueColor ∨
      auto_detected_mode colorterm = ColorMode.ANSI) ∧
    program_output "auto" colorterm img g =
      .ok (render_document (auto_detected_mode colorterm) img g) :=
  ⟨from_str_auto colorterm, auto_detected_mode_cases colorterm,
    program_output_auto colorterm img g⟩

/-- C3: the nearest-colour search itself returns Green for the exact Green
reference RGB (0,205,0), but the final correspondence table of
`color_mapping_ansi` maps it (and every other non-black match) to
`Colour::Red` — the code contradicts the claimed per-colour mapping. -/
theorem claim_C3 :
    pick_closest_from (CColor.TrueColor 0 205 0) basic_candidates into_truecolor =
        some CColor.Green ∧
    color_mapping_ansi ⟨0, 205, 0, 255⟩ = Colour.Red ∧
    Colour.Red ≠ Colour.Green :=
  ⟨by decide, by decide, by decide⟩

/-- C4: Indexed256 quantization always returns the palette entry of least
squared-Euclidean distance, ties resolved by the lowest palette index; in
particular the opaque black pixel quantizes to index 0 at distance 0, not
to the duplicate black at index 16. -/
theorem claim_C4 :
    (∀ p : Pixel, ∃ i, i < 256 ∧ color_mapping_256 p = Colour.Fixed i ∧
      (∀ j, j < 256 →
        euclidian_distance (pixel_rgb p) (palette_rgb i) ≤
          euclidian_distance (pixel_rgb p) (palette_rgb j)) ∧
      (∀ j, j < 256 →
        euclidian_distance (pixel_rgb p) (palette_rgb j) ≤
          euclidian_distance (pixel_rgb p) (palette_rgb i) → i ≤ j)) ∧
    color_mapping_256 ⟨0, 0, 0, 255⟩ = Colour.Fixed 0 ∧
    euclidian_distance (pixel_rgb ⟨0, 0, 0, 255⟩) (palette_rgb 0) = 0 :=
  ⟨color_mapping_256_spec, by decide, by decide⟩

/-- C4 witness: the characterization applied to a concrete pixel. -/
theorem claim_C4_witness :
    ∃ i, i < 256 ∧ color_mapping_256 ⟨5, 5, 5, 255⟩ = Colour.Fixed i ∧
      (∀ j, j < 256 →
        euclidian_distance (pixel_rgb ⟨5, 5, 5, 255⟩) (palette_rgb i) ≤
          euclidian_distance (pixel_rgb ⟨5, 5, 5, 255⟩) (palette_rgb j)) ∧
      (∀ j, j < 256 →
        euclidian_distance (pixel_rgb ⟨5, 5, 5, 255⟩) (palette_rgb j) ≤
          euclidian_distance (pixel_rgb ⟨5, 5, 5, 255⟩) (palette_rgb i) → i ≤ j) :=
  claim_C4.1 ⟨5, 5, 5, 255⟩

/-- C5 counterexample: the escaper maps U+001D (Group Separator) to the
two characters `\r`, not to the claimed 4-hex-digit escape `\u001d`; and a
code point above `0xFFFF` produces five hex digits, not exactly four. -/
theorem claim_C5_counterexample :
    escape_for_string_content (String.mk ['\x1d']) = "\\r" ∧
    ("\\r" : String) ≠ "\\u001d" ∧
    escape_for_string_content (String.mk [Char.ofNat 0x1F600]) = "\\u1f600" ∧
    (escape_for_string_content (String.mk [Char.ofNat 0x1F600])).length = 7 :=
  ⟨by decide, by decide, by decide, by decide⟩

/-- C5 (amended): each character is rewritten independently by the first
matching rule — backslash and quote get a preceding backslash; U+001B,
U+000A and U+001D become `\e`, `\n` and `\r` (the `\r` for U+001D is the
slip flagged in the design notes); every remaining character that is not
printable ASCII (U+000D included) becomes `\u` plus its code point in
lowercase hex zero-padded to at least 4 digits (exactly 4 for code points
below 0x10000); everything else is copied unchanged. -/
theorem claim_C5_amended (s : String) (c : Char) :
    escape_for_string_content s = String.mk (s.data.flatMap escape_char_spec) ∧
    (c.toNat < 0x10000 → (format_04x c.toNat).length = 4) :=
  ⟨escape_eq_spec s, fun h => format_04x_length_of_bmp c.toNat h⟩

/-- C5 witness: the amended rules applied to the carriage-return character. -/
theorem claim_C5_witness :
    escape_for_string_content (String.mk ['\x0d'])
        = String.mk ((String.mk ['\x0d']).data.flatMap escape_char_spec) ∧
    (format_04x ('\x0d').toNat).length = 4 :=
  ⟨(claim_C5_amended (String.mk ['\x0d']) '\x0d').1,
    (claim_C5_amended (String.mk ['\x0d']) '\x0d').2 (by decide)⟩

/-- C6: the minimal-control-sequence emitter renders, through the reference
escape-sequence interpreter, exactly what the naive
activate-every-span-then-reset emitter renders; its output is never longer
than the naive output; the empty span sequence produces empty output with
no control sequences at all (and the emitted string is precisely the
flattening of the interpreted chunk stream). -/
theorem claim_C6 (spans : List Span) :
    rendered_chars Style.default (minimal_cmds spans)
        = rendered_chars Style.default (naive_cmds spans) ∧
    (write_with_minimal_control_sequences spans).length ≤ (naive_emit spans).length ∧
    write_with_minimal_control_sequences spans = cmds_str (minimal_cmds spans) ∧
    naive_emit spans = cmds_str (naive_cmds spans) ∧
    write_with_minimal_control_sequences ([] : List Span) = "" ∧
    minimal_cmds ([] : List Span) = [] :=
  ⟨rendered_write_eq_naive spans, minimal_len_le spans, rfl, naive_emit_eq_cmds spans,
    rfl, rfl⟩

/-- C7: the sampler output is exactly `ceil(height/2)` rows of `width`
glyph spans plus one trailing newline span each; with odd height, `DOWN`
(PadBottom) places the (virtual-upper, real row 0) half row first and `UP`
(PadTop) places the (last real row, virtual-lower) half row last; with even
height the policy makes no difference. -/
theorem claim_C7 (img : Image) (g : VerticalDirection) (mapper : Pixel → Colour)
    (hw : 1 ≤ img.width) (hh : 1 ≤ img.height) :
    image_to_ascii img g mapper = (spec_row_pairs img.height g).flatMap (render_row img mapper) ∧
    (spec_row_pairs img.height g).length = (img.height + 1) / 2 ∧
    (∀ pr ∈ spec_row_pairs img.height g,
      (render_row img mapper pr).length = img.width + 1 ∧
      (render_row img mapper pr).getLast? = some newline_span) ∧
    (img.height % 2 = 1 →
      (spec_row_pairs img.height VerticalDirection.DOWN).head? = some (none, some 0) ∧
      (spec_row_pairs img.height VerticalDirection.UP).getLast?
        = some (some (img.height - 1), none)) ∧
    (img.height % 2 = 0 →
      spec_row_pairs img.height VerticalDirection.DOWN
        = spec_row_pairs img.height VerticalDirection.UP) := by
  refine ⟨image_to_ascii_eq_rows img g mapper, spec_row_pairs_length img.height g,
    fun pr _ => ⟨render_row_length img mapper pr, render_row_getLast img mapper pr⟩,
    fun hodd => ⟨?_, ?_⟩, fun heven => spec_row_pairs_even img.height heven _ _⟩
  · unfold spec_row_pairs
    rw [if_pos hodd]
    rfl
  · unfold spec_row_pairs
    rw [if_pos hodd]
    show (List.map (fun k => ((some (2 * k) : Option Nat), (some (2 * k + 1) : Option Nat)))
        (List.range ((img.height - 1) / 2)) ++ [(some (img.height - 1), none)]).getLast? = _
    simp

/-- C7 witness: a 1×1 image under PadTop. -/
theorem claim_C7_witness :
    image_to_ascii ⟨1, 1, fun _ _ => ⟨1, 2, 3, 255⟩⟩ VerticalDirection.UP color_mapping_truecolor
      = (spec_row_pairs 1 VerticalDirection.UP).flatMap
          (render_row ⟨1, 1, fun _ _ => ⟨1, 2, 3, 255⟩⟩ color_mapping_truecolor) :=
  (claim_C7 ⟨1, 1, fun _ _ => ⟨1, 2, 3, 255⟩⟩ VerticalDirection.UP color_mapping_truecolor
    (le_refl 1) (le_refl 1)).1

/-- C8: the rendering core is total — the nearest-colour searches over the
non-empty 8- and 256-entry tables never hit their unwrap/panic branches,
the transparency assertions in pair classification always hold, and the
`u8` channel subtraction (max minus min) never underflows. -/
theorem claim_C8 :
    (∀ p : Pixel, (color_mapping_ansi_checked p).isSome) ∧
    (∀ p : Pixel, (color_mapping_256_checked p).isSome) ∧
    (∀ (u l : Pixel) (mode : ColorMode),
      (two_pixels_to_ascii_char_checked u l mode.color_mapper).isSome) ∧
    (∀ ca cb : Nat × Nat × Nat, (euclidian_distance_checked ca cb).isSome) :=
  ⟨color_mapping_ansi_checked_isSome, color_mapping_256_checked_isSome,
    fun u l mode => two_pixels_to_ascii_char_checked_isSome u l mode.color_mapper,
    euclidian_distance_checked_isSome⟩

/-- C9 counterexample: (0,205,0) is the exact reference RGB of the basic
colour Green, yet Basic8 quantization returns `Colour::Red`, whose own RGB
differs from the input — so quantizing an exact palette entry does not
return that entry. -/
theorem claim_C9_counterexample :
    into_truecolor CColor.Green = (0, 205, 0) ∧
    color_mapping_ansi ⟨0, 205, 0, 255⟩ = Colour.Red ∧
    colour_rgb (color_mapping_ansi ⟨0, 205, 0, 255⟩) ≠ (0, 205, 0) :=
  ⟨by decide, by decide, by decide⟩

/-- C9 (amended): Indexed256 exact palette RGBs quantize to the first
palette index carrying that RGB at distance 0, and re-quantizing the RGB of
any Indexed256 result is a no-op; for Basic8, re-quantizing the RGB of any
result is likewise a no-op (every output is Black or Red, both fixed
points), but of the eight exact reference RGBs only black's and red's
return their own colour — the other six collapse to Red through the
mismapped correspondence table. -/
theorem claim_C9_amended :
    (∀ i, i < 256 → ∃ j, j ≤ i ∧ palette_rgb j = palette_rgb i ∧
      color_mapping_256 (pixel_of_rgb (palette_rgb i)) = Colour.Fixed j ∧
      euclidian_distance (palette_rgb i) (palette_rgb j) = 0) ∧
    (∀ p : Pixel,
      color_mapping_256 (pixel_of_rgb (colour_rgb (color_mapping_256 p)))
        = color_mapping_256 p) ∧
    (∀ p : Pixel,
      color_mapping_ansi (pixel_of_rgb (colour_rgb (color_mapping_ansi p)))
        = color_mapping_ansi p) ∧
    color_mapping_ansi (pixel_of_rgb (0, 0, 0)) = Colour.Black ∧
    color_mapping_ansi (pixel_of_rgb (205, 0, 0)) = Colour.Red :=
  ⟨fun _ hi => color_mapping_256_exact hi, color_mapping_256_idem, color_mapping_ansi_idem,
    by decide, by decide⟩

/-- C9 witness: the duplicate black at palette index 16 quantizes back to
an earlier index with the same RGB. -/
theorem claim_C9_witness :
    ∃ j, j ≤ 16 ∧ palette_rgb j = palette_rgb 16 ∧
      color_mapping_256 (pixel_of_rgb (palette_rgb 16)) = Colour.Fixed j ∧
      euclidian_distance (palette_rgb 16) (palette_rgb j) = 0 :=
  claim_C9_amended.1 16 (by decide)

/-- C10: every character of the escaper's output is printable ASCII
(0x20–0x7E) — never a raw control byte, raw ESC, or non-ASCII character —
and every double quote in the output is immediately preceded by a
backslash (in particular the output never starts with a quote). -/
theorem claim_C10 (s : String) :
    (∀ c ∈ (escape_for_string_content s).data, 0x20 ≤ c.toNat ∧ c.toNat ≤ 0x7E) ∧
    (escape_for_string_content s).data.get? 0 ≠ some '"' ∧
    (∀ i, (escape_for_string_content s).data.get? (i + 1) = some '"' →
      (escape_for_string_content s).data.get? i = some '\\') :=
  ⟨escape_printable s, (escape_quote_ok s).1, (escape_quote_ok s).2⟩

/-- C10 witness: the escaped quote in the output of escaping `"` is
preceded by a backslash, and that backslash is printable ASCII. -/
theorem claim_C10_witness :
    (0x20 ≤ ('\\').toNat ∧ ('\\').toNat ≤ 0x7E) ∧
    (escape_for_string_content "\"").data.get? 0 = some '\\' :=
  ⟨(claim_C10 "\"").1 '\\' (by decide), (claim_C10 "\"").2.2 0 (by decide)⟩
